import Mathlib

/-!
Verification of the interaction-to-code transformation engine of the
test-generator repository (a TypeScript program).  The definitions below are a
shallow embedding of the functions in
`claude-agent/src/analyzer/react-analyzer.ts`,
`claude-agent/src/analyzer/testid-inserter.ts`,
`claude-agent/src/generator/test-generator.ts`,
`claude-agent/src/generator/assertion-generator.ts` and
`claude-agent/src/generator/playwright-templates.ts`.

Modelling conventions:
* JavaScript numbers that the program only ever uses as non-negative integers
  (line numbers, column numbers, timestamps) are `Nat`.
* Optional / possibly-`undefined` fields are `Option`.
* JavaScript string truthiness (`undefined`, `null` and `""` are falsy) is
  modelled explicitly wherever the source relies on it.
* `Set` objects are modelled as lists with membership (only membership and
  insertion are used by the source).
* Template-literal number formatting (e.g. `` `${counter}` ``) is modelled by
  an executable decimal renderer `natToString`.
-/

/-! ## Decimal rendering of natural numbers

Model of JavaScript's number-to-string conversion for non-negative integers
(used by template literals in `makeUnique` and in skip-reason messages).
`decCharsAux` is fuel-indexed so that it is structurally recursive and hence
computable by `decide`/`rfl`; `natToString n` supplies sufficient fuel. -/

/-- The character for a single decimal digit value. -/
def digitChar (d : Nat) : Char := Char.ofNat (48 + d)

/-- Decimal digit characters of `n`, most significant first; `fuel` bounds the
recursion depth. -/
def decCharsAux : Nat → Nat → List Char
  | 0, _ => []
  | f + 1, n =>
    if n < 10 then [digitChar n]
    else decCharsAux f (n / 10) ++ [digitChar (n % 10)]

/-- Decimal string of a natural number, as produced by a JavaScript template
literal for a non-negative integer. -/
def natToString (n : Nat) : String := ⟨decCharsAux (n + 1) n⟩

/-- Reads a digit list back into a number (proof device for injectivity). -/
def fromDec (l : List Char) : Nat :=
  l.foldl (fun a c => a * 10 + (c.toNat - 48)) 0

theorem fromDec_append (l : List Char) (c : Char) :
    fromDec (l ++ [c]) = 10 * fromDec l + (c.toNat - 48) := by
  simp [fromDec, List.foldl_append, Nat.mul_comm]

theorem digitChar_toNat {d : Nat} (h : d < 10) : (digitChar d).toNat = 48 + d := by
  interval_cases d <;> decide

theorem fromDec_decCharsAux :
    ∀ (fuel n : Nat), n < fuel → fromDec (decCharsAux fuel n) = n := by
  intro fuel
  induction fuel with
  | zero => intro n h; omega
  | succ f ih =>
    intro n h
    by_cases h10 : n < 10
    · simp only [decCharsAux, if_pos h10]
      simp [fromDec, digitChar_toNat h10]
    · simp only [decCharsAux, if_neg h10]
      rw [fromDec_append]
      have hdiv : n / 10 < f := by
        have h1 : n / 10 < n := Nat.div_lt_self (by omega) (by omega)
        omega
      rw [ih (n / 10) hdiv, digitChar_toNat (Nat.mod_lt n (by omega))]
      omega

theorem natToString_injective : Function.Injective natToString := by
  intro a b h
  have hdata : decCharsAux (a + 1) a = decCharsAux (b + 1) b := by
    have := congrArg String.data h
    simpa [natToString] using this
  have ha := fromDec_decCharsAux (a + 1) a (Nat.lt_succ_self a)
  have hb := fromDec_decCharsAux (b + 1) b (Nat.lt_succ_self b)
  rw [← ha, ← hb, hdata]

/-! ## Shared string helpers -/

/-- ASCII lower-casing of a character, as `String.prototype.toLowerCase`
behaves on ASCII input. -/
def asciiLowerChar (c : Char) : Char :=
  if 65 ≤ c.toNat ∧ c.toNat ≤ 90 then Char.ofNat (c.toNat + 32) else c

/-- ASCII lower-casing of a string (model of `toLowerCase` on ASCII data). -/
def asciiLower (s : String) : String := ⟨s.data.map asciiLowerChar⟩

/-- Whether `w` occurs at the start of `s`. -/
def listStartsWith : List Char → List Char → Bool
  | _, [] => true
  | [], _ :: _ => false
  | a :: as, b :: bs => a == b && listStartsWith as bs

/-- Whether `w` occurs contiguously anywhere inside `s`. -/
def listContainsSub : List Char → List Char → Bool
  | s, w =>
    match s with
    | [] => w.isEmpty
    | _ :: rest => listStartsWith s w || listContainsSub rest w

/-- JavaScript `String.prototype.includes`: substring containment. -/
def containsSubstr (s w : String) : Bool := listContainsSub s.data w.data

/-- First JS-truthy string of a chain `a || b || … || ''`: skips `undefined`
and `""`, returns `""` when nothing is truthy. -/
def firstTruthyStr (opts : List (Option String)) : String :=
  ((opts.filterMap id).find? (fun s => !(s == ""))).getD ""

/-- JS truthiness of an optional string. -/
def optTruthy : Option String → Bool
  | none => false
  | some s => !(s == "")

/-- Lookup in an attribute map (`Record<string, string>` access). -/
def attrLookup (attrs : List (String × String)) (k : String) : Option String :=
  (attrs.find? (fun p => p.1 == k)).map (fun p => p.2)

/-! ## Element index and position resolver (`react-analyzer.ts`) -/

/-- One JSX element occurrence as recorded by `analyzeReactFile`
(`JSXElementInfo` in `react-analyzer.ts`). -/
structure JSXElementInfo where
  tagName : String
  line : Nat
  column : Nat
  hasTestId : Bool := false
  existingTestId : Option String := none
  parentComponent : Option String := none
  attributes : List (String × String) := []
  deriving Repr, DecidableEq

/-- Absolute distance between two line numbers (`Math.abs(a - b)`). -/
def lineDist (a b : Nat) : Nat := max a b - min a b

/-- The reduce step of `findJSXElementAtPosition`: keep the first element
seen whose line distance is minimal. -/
def closestStep (line : Nat) (closest : Option JSXElementInfo)
    (el : JSXElementInfo) : Option JSXElementInfo :=
  match closest with
  | none => some el
  | some c => if lineDist el.line line < lineDist c.line line then some el else some c

/-- Position resolver `findJSXElementAtPosition` from `react-analyzer.ts`:
exact (line, column) match first; else the unique element on the line; else
the first element with minimal absolute line distance. -/
def findJSXElementAtPosition (jsxElements : List JSXElementInfo)
    (line column : Nat) : Option JSXElementInfo :=
  match jsxElements.find? (fun el => el.line == line && el.column == column) with
  | some exact => some exact
  | none =>
    let sameLine := jsxElements.filter (fun el => el.line == line)
    if sameLine.length == 1 then sameLine.head?
    else jsxElements.foldl (closestStep line) none

theorem closest_foldl_some (line : Nat) :
    ∀ (l : List JSXElementInfo) (c : JSXElementInfo),
      (l.foldl (closestStep line) (some c) = some c ∧
        ∀ x ∈ l, lineDist c.line line ≤ lineDist x.line line) ∨
      (∃ l₁ r l₂, l = l₁ ++ r :: l₂ ∧
        l.foldl (closestStep line) (some c) = some r ∧
        lineDist r.line line < lineDist c.line line ∧
        (∀ x ∈ l₁, lineDist r.line line < lineDist x.line line) ∧
        (∀ x ∈ l₂, lineDist r.line line ≤ lineDist x.line line)) := by
  intro l
  induction l with
  | nil => intro c; left; simp
  | cons y ys ih =>
    intro c
    by_cases hy : lineDist y.line line < lineDist c.line line
    · have hstep : closestStep line (some c) y = some y := by
        simp [closestStep, hy]
      rcases ih y with ⟨heq, hle⟩ | ⟨l₁, r, l₂, hsplit, heq, hlt, hl₁, hl₂⟩
      · right
        refine ⟨[], y, ys, by simp, ?_, hy, by simp, hle⟩
        simpa [hstep] using heq
      · right
        refine ⟨y :: l₁, r, l₂, by simp [hsplit], ?_, lt_trans hlt hy, ?_, hl₂⟩
        · simpa [hstep] using heq
        · intro x hx
          rcases List.mem_cons.mp hx with rfl | hx
          · exact hlt
          · exact hl₁ x hx
    · have hstep : closestStep line (some c) y = some c := by
        simp [closestStep, hy]
      rcases ih c with ⟨heq, hle⟩ | ⟨l₁, r, l₂, hsplit, heq, hlt, hl₁, hl₂⟩
      · left
        constructor
        · simpa [hstep] using heq
        · intro x hx
          rcases List.mem_cons.mp hx with rfl | hx
          · omega
          · exact hle x hx
      · right
        refine ⟨y :: l₁, r, l₂, by simp [hsplit], ?_, hlt, ?_, hl₂⟩
        · simpa [hstep] using heq
        · intro x hx
          rcases List.mem_cons.mp hx with rfl | hx
          · omega
          · exact hl₁ x hx

theorem closest_foldl_none (line : Nat) (l : List JSXElementInfo) (h : l ≠ []) :
    ∃ l₁ r l₂, l = l₁ ++ r :: l₂ ∧
      l.foldl (closestStep line) none = some r ∧
      (∀ x ∈ l₁, lineDist r.line line < lineDist x.line line) ∧
      (∀ x ∈ l, lineDist r.line line ≤ lineDist x.line line) := by
  match l with
  | [] => exact absurd rfl h
  | y :: ys =>
    have hfold : (y :: ys).foldl (closestStep line) none
        = ys.foldl (closestStep line) (some y) := by
      simp [closestStep]
    rcases closest_foldl_some line ys y with ⟨heq, hle⟩ | ⟨l₁, r, l₂, hsplit, heq, hlt, hl₁, hl₂⟩
    · refine ⟨[], y, ys, by simp, by rw [hfold]; exact heq, by simp, ?_⟩
      intro x hx
      rcases List.mem_cons.mp hx with rfl | hx
      · omega
      · exact hle x hx
    · refine ⟨y :: l₁, r, l₂, by simp [hsplit], by rw [hfold]; exact heq, ?_, ?_⟩
      · intro x hx
        rcases List.mem_cons.mp hx with rfl | hx
        · exact hlt
        · exact hl₁ x hx
      · intro x hx
        rcases List.mem_cons.mp hx with rfl | hx
        · omega
        · subst hsplit
          rcases List.mem_append.mp hx with hx | hx
          · exact le_of_lt (hl₁ x hx)
          · rcases List.mem_cons.mp hx with rfl | hx
            · omega
            · exact hl₂ x hx

/-- C1: `findJSXElementAtPosition` returns the first exact (line, column)
match if one exists; otherwise, the unique occurrence on the queried line if
there is exactly one; otherwise the first occurrence with minimal absolute
line distance; and it returns `none` exactly when the index is empty. -/
theorem findJSXElementAtPosition_resolves (l : List JSXElementInfo)
    (line column : Nat) :
    (findJSXElementAtPosition l line column = none ↔ l = []) ∧
    (∀ e, l.find? (fun el => el.line == line && el.column == column) = some e →
      findJSXElementAtPosition l line column = some e) ∧
    (l.find? (fun el => el.line == line && el.column == column) = none →
      ∀ e, l.filter (fun el => el.line == line) = [e] →
      findJSXElementAtPosition l line column = some e) ∧
    (l.find? (fun el => el.line == line && el.column == column) = none →
      (l.filter (fun el => el.line == line)).length ≠ 1 →
      l ≠ [] →
      ∃ l₁ e l₂, l = l₁ ++ e :: l₂ ∧
        findJSXElementAtPosition l line column = some e ∧
        (∀ x ∈ l₁, lineDist e.line line < lineDist x.line line) ∧
        (∀ x ∈ l, lineDist e.line line ≤ lineDist x.line line)) := by
  refine ⟨?_, ?_, ?_, ?_⟩
  · constructor
    · intro hnone
      by_contra hne
      cases hfind : l.find? (fun el => el.line == line && el.column == column) with
      | some e => simp [findJSXElementAtPosition, hfind] at hnone
      | none =>
        by_cases hlen : (l.filter (fun el => el.line == line)).length = 1
        · obtain ⟨e, he⟩ := List.length_eq_one.mp hlen
          simp [findJSXElementAtPosition, hfind, hlen, he] at hnone
        · obtain ⟨l₁, r, l₂, _, heq, _, _⟩ := closest_foldl_none line l hne
          have : findJSXElementAtPosition l line column = some r := by
            simp only [findJSXElementAtPosition, hfind]
            rw [if_neg (by simpa using hlen)]
            exact heq
          rw [this] at hnone
          exact Option.noConfusion hnone
    · intro h; subst h; rfl
  · intro e hfind
    simp [findJSXElementAtPosition, hfind]
  · intro hfind e hfilter
    simp [findJSXElementAtPosition, hfind, hfilter]
  · intro hfind hlen hne
    obtain ⟨l₁, r, l₂, hsplit, heq, hl₁, hall⟩ := closest_foldl_none line l hne
    refine ⟨l₁, r, l₂, hsplit, ?_, hl₁, hall⟩
    simp only [findJSXElementAtPosition, hfind]
    rw [if_neg (by simpa using hlen)]
    exact heq

/-- Witness for C1 at the spec's example: occurrences on lines 4, 5, 6 with a
single occurrence on line 5; resolving (5, 999) yields the line-5 occurrence
and resolving (10, 0) yields the line-6 occurrence. -/
theorem findJSXElementAtPosition_resolves_witness :
    (findJSXElementAtPosition
      [⟨"div", 4, 2, false, none, none, []⟩,
       ⟨"button", 5, 3, false, none, none, []⟩,
       ⟨"span", 6, 2, false, none, none, []⟩] 5 999
      = some ⟨"button", 5, 3, false, none, none, []⟩) ∧
    (findJSXElementAtPosition
      [⟨"div", 4, 2, false, none, none, []⟩,
       ⟨"button", 5, 3, false, none, none, []⟩,
       ⟨"span", 6, 2, false, none, none, []⟩] 10 0
      = some ⟨"span", 6, 2, false, none, none, []⟩) := by
  constructor
  · exact (findJSXElementAtPosition_resolves _ 5 999).2.2.1 (by decide) _ (by decide)
  · obtain ⟨l₁, e, l₂, hsplit, heq, _, hall⟩ :=
      (findJSXElementAtPosition_resolves
        [⟨"div", 4, 2, false, none, none, []⟩,
         ⟨"button", 5, 3, false, none, none, []⟩,
         ⟨"span", 6, 2, false, none, none, []⟩] 10 0).2.2.2
        (by decide) (by decide) (by decide)
    have : e = ⟨"span", 6, 2, false, none, none, []⟩ := by
      have hmem : e ∈ ([⟨"div", 4, 2, false, none, none, []⟩,
        ⟨"button", 5, 3, false, none, none, []⟩,
        ⟨"span", 6, 2, false, none, none, []⟩] : List JSXElementInfo) := by
        rw [hsplit]; exact List.mem_append_right _ (List.mem_cons_self _ _)
      have h6 := hall ⟨"span", 6, 2, false, none, none, []⟩ (by decide)
      fin_cases hmem <;> first | rfl | (exfalso; revert h6; decide)
    rw [this] at heq
    exact heq

/-! ## Naming uniqueness (`makeUnique` in `react-analyzer.ts`) -/

/-- The candidate string `` `${testId}-${counter}` ``. -/
def suffixed (testId : String) (n : Nat) : String := testId ++ "-" ++ natToString n

theorem stringData_append (a b : String) : (a ++ b).data = a.data ++ b.data := rfl

theorem suffixed_injective (tid : String) : Function.Injective (suffixed tid) := by
  intro a b h
  have hd := congrArg String.data h
  simp only [suffixed, stringData_append] at hd
  have h1 : (natToString a).data = (natToString b).data := List.append_cancel_left hd
  exact natToString_injective (congrArg String.mk h1)

/-- The `while` loop of `makeUnique`, fuel-indexed: try `counter`,
`counter + 1`, … until a candidate is free; after `fuel` failed membership
tests return the next candidate unchecked. -/
def makeUniqueFrom (testId : String) (existingIds : List String) :
    Nat → Nat → String
  | counter, 0 => suffixed testId counter
  | counter, fuel + 1 =>
    if suffixed testId counter ∈ existingIds then
      makeUniqueFrom testId existingIds (counter + 1) fuel
    else suffixed testId counter

/-- Naming-engine uniqueness enforcement `makeUnique` from
`react-analyzer.ts`: return `testId` unchanged when it is not taken,
otherwise append `-2`, `-3`, … until a free candidate is found.  The fuel
`existingIds.length + 1` is enough for the loop to reach a free candidate
(see `makeUniqueFrom_exhausts`). -/
def makeUnique (testId : String) (existingIds : List String) : String :=
  if testId ∉ existingIds then testId
  else makeUniqueFrom testId existingIds 2 (existingIds.length + 1)

theorem makeUniqueFrom_spec (tid : String) (used : List String) :
    ∀ (fuel counter : Nat),
      (∃ k, k ≤ fuel ∧ suffixed tid (counter + k) ∉ used) →
      ∃ k, k ≤ fuel ∧ suffixed tid (counter + k) ∉ used ∧
        (∀ j, j < k → suffixed tid (counter + j) ∈ used) ∧
        makeUniqueFrom tid used counter fuel = suffixed tid (counter + k) := by
  intro fuel
  induction fuel with
  | zero =>
    intro counter hex
    obtain ⟨k, hk, hfree⟩ := hex
    interval_cases k
    exact ⟨0, le_refl 0, hfree, by omega, by simp [makeUniqueFrom]⟩
  | succ f ih =>
    intro counter hex
    by_cases hc : suffixed tid counter ∈ used
    · have hex' : ∃ k, k ≤ f ∧ suffixed tid (counter + 1 + k) ∉ used := by
        obtain ⟨k, hk, hfree⟩ := hex
        cases k with
        | zero => simp at hfree; exact absurd hc hfree
        | succ k' =>
          refine ⟨k', by omega, ?_⟩
          have : counter + 1 + k' = counter + (k' + 1) := by omega
          rw [this]
          exact hfree
      obtain ⟨k, hk, hfree, hbusy, heq⟩ := ih (counter + 1) hex'
      refine ⟨k + 1, by omega, ?_, ?_, ?_⟩
      · have : counter + (k + 1) = counter + 1 + k := by omega
        rw [this]
        exact hfree
      · intro j hj
        cases j with
        | zero => simpa using hc
        | succ j' =>
          have hmem := hbusy j' (by omega)
          have : counter + (j' + 1) = counter + 1 + j' := by omega
          rw [this]
          exact hmem
      · simp only [makeUniqueFrom, if_pos hc]
        rw [heq]
        congr 1
        omega
    · exact ⟨0, by omega, by simpa using hc, by omega,
        by simp only [makeUniqueFrom, if_neg hc, Nat.add_zero]⟩

theorem makeUniqueFrom_exhausts (tid : String) (used : List String) :
    ∃ k, k ≤ used.length + 1 ∧ suffixed tid (2 + k) ∉ used := by
  by_contra hall
  push_neg at hall
  have hsub : ∀ x ∈ (List.range (used.length + 2)).map (fun k => suffixed tid (2 + k)),
      x ∈ used := by
    intro x hx
    obtain ⟨k, hk, rfl⟩ := List.mem_map.mp hx
    exact hall k (by simpa using Nat.lt_succ_iff.mp (List.mem_range.mp hk))
  have hnodup : ((List.range (used.length + 2)).map (fun k => suffixed tid (2 + k))).Nodup := by
    refine List.Nodup.map ?_ (List.nodup_range _)
    intro a b hab
    have := suffixed_injective tid hab
    omega
  have hlen : ((List.range (used.length + 2)).map (fun k => suffixed tid (2 + k))).length
      = used.length + 2 := by simp
  have hcard1 : ((List.range (used.length + 2)).map
      (fun k => suffixed tid (2 + k))).toFinset.card = used.length + 2 := by
    rw [List.toFinset_card_of_nodup hnodup, hlen]
  have hcard2 : ((List.range (used.length + 2)).map
      (fun k => suffixed tid (2 + k))).toFinset.card ≤ used.toFinset.card := by
    apply Finset.card_le_card
    intro x hx
    exact List.mem_toFinset.mpr (hsub x (List.mem_toFinset.mp hx))
  have hcard3 : used.toFinset.card ≤ used.length := used.toFinset_card_le
  omega

theorem makeUnique_least (tid : String) (used : List String) (h : tid ∈ used) :
    ∃ n, 2 ≤ n ∧ suffixed tid n ∉ used ∧
      (∀ m, 2 ≤ m → m < n → suffixed tid m ∈ used) ∧
      makeUnique tid used = suffixed tid n := by
  obtain ⟨k, hk, hfree, hbusy, heq⟩ :=
    makeUniqueFrom_spec tid used (used.length + 1) 2 (makeUniqueFrom_exhausts tid used)
  refine ⟨2 + k, by omega, hfree, ?_, ?_⟩
  · intro m h2 hm
    have := hbusy (m - 2) (by omega)
    have hm2 : 2 + (m - 2) = m := by omega
    rwa [hm2] at this
  · simp only [makeUnique, h]
    simpa using heq

theorem makeUnique_not_mem (tid : String) (used : List String) :
    makeUnique tid used ∉ used := by
  by_cases h : tid ∈ used
  · obtain ⟨n, _, hfree, _, heq⟩ := makeUnique_least tid used h
    rw [heq]; exact hfree
  · simp [makeUnique, h]

/-- One run's incremental assignment: each candidate is made unique against
the identifiers used so far, then added to the used set (the per-file flow of
the insertion planner, per the claim's wording). -/
def assignUnique : List String → List String → List String
  | [], _ => []
  | c :: rest, used =>
    let id := makeUnique c used
    id :: assignUnique rest (id :: used)

theorem assignUnique_fresh :
    ∀ (cs used : List String),
      (assignUnique cs used).Nodup ∧ ∀ x ∈ assignUnique cs used, x ∉ used := by
  intro cs
  induction cs with
  | nil => intro used; simp [assignUnique]
  | cons c rest ih =>
    intro used
    obtain ⟨hnodup, hfresh⟩ := ih (makeUnique c used :: used)
    constructor
    · refine List.nodup_cons.mpr ⟨?_, hnodup⟩
      intro hmem
      exact hfresh _ hmem (List.mem_cons_self _ _)
    · intro x hx
      rcases List.mem_cons.mp hx with rfl | hx
      · exact makeUnique_not_mem c used
      · intro hxu
        exact hfresh x hx (List.mem_cons_of_mem _ hxu)

/-- C3: `makeUnique` returns the candidate unchanged when free, otherwise the
candidate suffixed with `-n` for the least n ≥ 2 that is free; the result is
never a member of the given set; the spec's concrete examples hold; and
identifiers assigned incrementally within one run are pairwise distinct. -/
theorem makeUnique_spec_full (tid : String) (used : List String) :
    (tid ∉ used → makeUnique tid used = tid) ∧
    (tid ∈ used → ∃ n, 2 ≤ n ∧ suffixed tid n ∉ used ∧
      (∀ m, 2 ≤ m → m < n → suffixed tid m ∈ used) ∧
      makeUnique tid used = suffixed tid n) ∧
    makeUnique tid used ∉ used ∧
    makeUnique "x" ["x"] = "x-2" ∧
    makeUnique "x" ["x", "x-2", "x-3"] = "x-4" ∧
    (∀ cs, (assignUnique cs used).Nodup) := by
  refine ⟨?_, makeUnique_least tid used, makeUnique_not_mem tid used,
    by decide, by decide, fun cs => (assignUnique_fresh cs used).1⟩
  intro h
  simp [makeUnique, h]

/-- Witness for C3 at concrete inputs. -/
theorem makeUnique_spec_full_witness :
    makeUnique "a" [] = "a" ∧
    makeUnique "x" ["x"] ∉ (["x"] : List String) ∧
    ∃ n, 2 ≤ n ∧ suffixed "x" n ∉ (["x"] : List String) ∧
      (∀ m, 2 ≤ m → m < n → suffixed "x" m ∈ (["x"] : List String)) ∧
      makeUnique "x" ["x"] = suffixed "x" n :=
  ⟨(makeUnique_spec_full "a" []).1 (by decide),
   (makeUnique_spec_full "x" ["x"]).2.2.1,
   (makeUnique_spec_full "x" ["x"]).2.1 (by decide)⟩

/-! ## Insertion executor (`testid-inserter.ts`)

The parsed source file is modelled as the list of its JSX opening elements in
AST visit order.  An attribute is a JSX attribute with a string-literal
value, a JSX attribute with a non-literal (expression or absent) value, or a
spread attribute; only these distinctions are observed by the source.
`recast`'s printing is format-preserving, so an unchanged tree prints back to
the unchanged input; re-parsing the printed output is modelled as yielding
the mutated element list (coordinates of untouched elements are assumed
stable across the print/parse round trip). -/

/-- A JSX attribute as observed by the inserter. -/
inductive JSXAttr where
  | lit (name : String) (value : String)
  | expr (name : String)
  | spread
  deriving Repr, DecidableEq

/-- A JSX opening element of the parsed file. -/
structure JSXElem where
  tagName : String
  line : Nat
  column : Nat
  attrs : List JSXAttr
  deriving Repr, DecidableEq

/-- A planned insertion (`TestIdInsertion` in `shared/src/types.ts`). -/
structure TestIdInsertion where
  filePath : String
  lineNumber : Nat
  columnNumber : Nat
  testId : String
  elementTagName : String
  componentName : Option String := none
  deriving Repr, DecidableEq

/-- Whether an attribute is a `data-testid` JSX attribute (any value kind),
as tested by the `hasTestId` check in `addTestIdToElement`. -/
def isTestIdAttr : JSXAttr → Bool
  | .lit n _ => n == "data-testid"
  | .expr n => n == "data-testid"
  | .spread => false

/-- Whether the element already carries a `data-testid` attribute. -/
def elemHasTestId (e : JSXElem) : Bool := e.attrs.any isTestIdAttr

/-- All string-literal `data-testid` values of the file, in visit order (the
set collected at the top of `insertTestIds`). -/
def collectTestIds (elems : List JSXElem) : List String :=
  elems.flatMap (fun e => e.attrs.filterMap (fun a =>
    match a with
    | .lit n v => if n == "data-testid" then some v else none
    | _ => none))

/-- Position match of `addTestIdToElement`: the line must be equal and the
column must be equal unless the insertion's column is exactly 0, which acts
as a wildcard. -/
def posMatches (e : JSXElem) (ins : TestIdInsertion) : Bool :=
  e.line == ins.lineNumber &&
    (ins.columnNumber == 0 || e.column == ins.columnNumber)

/-- Tag verification of `addTestIdToElement`: skipped for a falsy
(empty) expected tag, `"*"` matches anything, otherwise case-insensitive
equality. -/
def tagMatches (e : JSXElem) (ins : TestIdInsertion) : Bool :=
  if ins.elementTagName == "" then true
  else asciiLower e.tagName == asciiLower ins.elementTagName
    || ins.elementTagName == "*"

/-- Index of the last spread attribute, or none (the `reduce` in
`addTestIdToElement`). -/
def lastSpreadIndex (attrs : List JSXAttr) : Option Nat :=
  ((attrs.enum.filter (fun p => p.2 == JSXAttr.spread)).getLast?).map (fun p => p.1)

/-- Insert the new attribute immediately after the last spread attribute, or
append it at the end of the attribute list. -/
def insertAfterLastSpread (attrs : List JSXAttr) (newAttr : JSXAttr) : List JSXAttr :=
  match lastSpreadIndex attrs with
  | some i => attrs.take (i + 1) ++ newAttr :: attrs.drop (i + 1)
  | none => attrs ++ [newAttr]

/-- The inserter's per-edit visitor `addTestIdToElement`: walk the elements
in visit order, and add `data-testid={testId}` to the first element that
matches the position and expected tag and does not already carry a
`data-testid`; `none` when no element is modified. -/
def addTestIdToElement (elems : List JSXElem) (ins : TestIdInsertion) :
    Option (List JSXElem) :=
  match elems with
  | [] => none
  | e :: rest =>
    if posMatches e ins && tagMatches e ins && !elemHasTestId e then
      some ({ e with attrs := insertAfterLastSpread e.attrs (JSXAttr.lit "data-testid" ins.testId) } :: rest)
    else
      (addTestIdToElement rest ins).map (e :: ·)

/-- Skip reason for a pre-existing identifier. -/
def alreadyExistsReason (testId : String) : String :=
  "Test ID \"" ++ testId ++ "\" already exists in file"

/-- Skip reason for an unlocatable element. -/
def notFoundReason (ins : TestIdInsertion) : String :=
  "Could not find JSX element at line " ++ natToString ins.lineNumber
    ++ ":" ++ natToString ins.columnNumber

/-- Strict "comes first" order of the inserter's sort comparator
`(a, b) => b.lineNumber - a.lineNumber || b.columnNumber - a.columnNumber`:
descending line, then descending column. -/
def insBefore (a b : TestIdInsertion) : Bool :=
  b.lineNumber < a.lineNumber ||
    (b.lineNumber == a.lineNumber && b.columnNumber < a.columnNumber)

/-- Stable insertion into a descending-sorted list: `x` goes after every
element it does not strictly precede. -/
def insertSortedDesc (x : TestIdInsertion) :
    List TestIdInsertion → List TestIdInsertion
  | [] => [x]
  | y :: ys => if insBefore x y then x :: y :: ys else y :: insertSortedDesc x ys

/-- Stable sort by descending (line, column) — the model of the (stable)
`Array.prototype.sort` call in `insertTestIds`. -/
def sortInsertions (l : List TestIdInsertion) : List TestIdInsertion :=
  l.foldl (fun acc x => insertSortedDesc x acc) []

/-- Result of `insertTestIds` (`InsertionResult` in `testid-inserter.ts`);
`elems` stands for the printed mutated code. -/
structure InsertionResult where
  elems : List JSXElem
  inserted : Nat
  skipped : List (String × String)
  deriving Repr, DecidableEq

/-- The main loop of `insertTestIds` over the sorted insertions, carrying
the mutated tree and the existing-identifier set. -/
def runInsertions (elems : List JSXElem) (existing : List String) :
    List TestIdInsertion → InsertionResult
  | [] => ⟨elems, 0, []⟩
  | ins :: rest =>
    if ins.testId ∈ existing then
      let r := runInsertions elems existing rest
      ⟨r.elems, r.inserted, (ins.testId, alreadyExistsReason ins.testId) :: r.skipped⟩
    else
      match addTestIdToElement elems ins with
      | some elems' =>
        let r := runInsertions elems' (ins.testId :: existing) rest
        ⟨r.elems, r.inserted + 1, r.skipped⟩
      | none =>
        let r := runInsertions elems existing rest
        ⟨r.elems, r.inserted, (ins.testId, notFoundReason ins) :: r.skipped⟩

/-- Insertion executor `insertTestIds` from `testid-inserter.ts`: seed the
collision set with the file's existing literal `data-testid` values, sort
the insertions by descending (line, column), then apply each in turn. -/
def insertTestIds (elems : List JSXElem) (insertions : List TestIdInsertion) :
    InsertionResult :=
  runInsertions elems (collectTestIds elems) (sortInsertions insertions)

/-- Monotone evolution of one element during an insertion run: position and
tag never change, and a `data-testid` attribute is never removed. -/
def ElemGrows (e e' : JSXElem) : Prop :=
  e.tagName = e'.tagName ∧ e.line = e'.line ∧ e.column = e'.column ∧
    (elemHasTestId e = true → elemHasTestId e' = true)

/-- Monotone evolution of the whole file during an insertion run. -/
def Grows (s s' : List JSXElem) : Prop := List.Forall₂ ElemGrows s s'

theorem elemGrows_refl (e : JSXElem) : ElemGrows e e := ⟨rfl, rfl, rfl, id⟩

theorem grows_refl (s : List JSXElem) : Grows s s := by
  induction s with
  | nil => exact List.Forall₂.nil
  | cons e rest ih => exact List.Forall₂.cons (elemGrows_refl e) ih

theorem grows_trans {s t u : List JSXElem} (h₁ : Grows s t) (h₂ : Grows t u) :
    Grows s u := by
  induction h₁ generalizing u with
  | nil => cases h₂; exact List.Forall₂.nil
  | @cons a b as bs hab _ ih =>
    cases h₂ with
    | cons hbc hrest =>
      refine List.Forall₂.cons ?_ (ih hrest)
      obtain ⟨h1, h2, h3, h4⟩ := hab
      obtain ⟨g1, g2, g3, g4⟩ := hbc
      exact ⟨h1.trans g1, h2.trans g2, h3.trans g3, fun h => g4 (h4 h)⟩

theorem posMatches_congr {e e' : JSXElem} (h : ElemGrows e e')
    (ins : TestIdInsertion) : posMatches e' ins = posMatches e ins := by
  obtain ⟨_, h2, h3, _⟩ := h
  simp [posMatches, h2, h3]

theorem tagMatches_congr {e e' : JSXElem} (h : ElemGrows e e')
    (ins : TestIdInsertion) : tagMatches e' ins = tagMatches e ins := by
  obtain ⟨h1, _, _, _⟩ := h
  simp [tagMatches, h1]

theorem mem_insertAfterLastSpread (attrs : List JSXAttr) (na a : JSXAttr) :
    a ∈ insertAfterLastSpread attrs na ↔ a = na ∨ a ∈ attrs := by
  cases hidx : lastSpreadIndex attrs with
  | none => simp [insertAfterLastSpread, hidx, or_comm]
  | some i =>
    simp only [insertAfterLastSpread, hidx, List.mem_append, List.mem_cons]
    conv_rhs => rw [← List.take_append_drop (i + 1) attrs]
    simp only [List.mem_append]
    tauto

theorem elemHasTestId_insert (e : JSXElem) (t : String) :
    elemHasTestId { e with attrs := insertAfterLastSpread e.attrs (JSXAttr.lit "data-testid" t) } = true := by
  simp only [elemHasTestId, List.any_eq_true]
  exact ⟨JSXAttr.lit "data-testid" t,
    (mem_insertAfterLastSpread _ _ _).mpr (Or.inl rfl), by simp [isTestIdAttr]⟩

theorem addTestId_grows {s s' : List JSXElem} {ins : TestIdInsertion}
    (h : addTestIdToElement s ins = some s') : Grows s s' := by
  induction s generalizing s' with
  | nil => simp [addTestIdToElement] at h
  | cons e rest ih =>
    by_cases hc : (posMatches e ins && tagMatches e ins && !elemHasTestId e) = true
    · simp only [addTestIdToElement, if_pos hc, Option.some.injEq] at h
      subst h
      refine List.Forall₂.cons ⟨rfl, rfl, rfl, ?_⟩ (grows_refl rest)
      intro hhas
      exact elemHasTestId_insert e ins.testId
    · simp only [addTestIdToElement, if_neg hc] at h
      cases hrec : addTestIdToElement rest ins with
      | none => rw [hrec] at h; simp at h
      | some rest' =>
        rw [hrec] at h
        simp only [Option.map_some', Option.some.injEq] at h
        subst h
        exact List.Forall₂.cons (elemGrows_refl e) (ih hrec)

theorem addTestId_none_mono {s s' : List JSXElem} {ins : TestIdInsertion}
    (hg : Grows s s') (h : addTestIdToElement s ins = none) :
    addTestIdToElement s' ins = none := by
  induction hg with
  | nil => simp [addTestIdToElement]
  | @cons e e' rest rest' hee hrest ih =>
    by_cases hc : (posMatches e ins && tagMatches e ins && !elemHasTestId e) = true
    · have hc' : posMatches e ins = true ∧ tagMatches e ins = true ∧
          elemHasTestId e = false := by simpa [and_assoc] using hc
      obtain ⟨hpos, htag, hhas'⟩ := hc'
      simp [addTestIdToElement, hpos, htag, hhas'] at h
    · simp only [addTestIdToElement, if_neg hc, Option.map_eq_none'] at h
      have hc' : ¬(posMatches e' ins && tagMatches e' ins && !elemHasTestId e') = true := by
        rw [posMatches_congr hee, tagMatches_congr hee]
        intro habs
        apply hc
        simp only [Bool.and_eq_true, Bool.not_eq_true'] at habs ⊢
        refine ⟨habs.1, ?_⟩
        cases hhas : elemHasTestId e with
        | false => rfl
        | true => rw [hee.2.2.2 hhas] at habs; exact habs.2
      simp only [addTestIdToElement, if_neg hc', Option.map_eq_none']
      exact ih h

theorem addTestId_collect_mono {s s' : List JSXElem} {ins : TestIdInsertion}
    (h : addTestIdToElement s ins = some s') :
    (∀ x ∈ collectTestIds s, x ∈ collectTestIds s') ∧
      ins.testId ∈ collectTestIds s' := by
  induction s generalizing s' with
  | nil => simp [addTestIdToElement] at h
  | cons e rest ih =>
    by_cases hc : (posMatches e ins && tagMatches e ins && !elemHasTestId e) = true
    · simp only [addTestIdToElement, if_pos hc, Option.some.injEq] at h
      subst h
      constructor
      · intro x hx
        simp only [collectTestIds, List.flatMap_cons, List.mem_append] at hx ⊢
        rcases hx with hx | hx
        · left
          simp only [List.mem_filterMap] at hx ⊢
          obtain ⟨a, ha, hfa⟩ := hx
          exact ⟨a, (mem_insertAfterLastSpread _ _ _).mpr (Or.inr ha), hfa⟩
        · right; exact hx
      · simp only [collectTestIds, List.flatMap_cons, List.mem_append]
        left
        simp only [List.mem_filterMap]
        exact ⟨JSXAttr.lit "data-testid" ins.testId,
          (mem_insertAfterLastSpread _ _ _).mpr (Or.inl rfl), by simp⟩
    · simp only [addTestIdToElement, if_neg hc] at h
      cases hrec : addTestIdToElement rest ins with
      | none => rw [hrec] at h; simp at h
      | some rest' =>
        rw [hrec] at h
        simp only [Option.map_some', Option.some.injEq] at h
        subst h
        obtain ⟨hmono, hmem⟩ := ih hrec
        constructor
        · intro x hx
          simp only [collectTestIds, List.flatMap_cons, List.mem_append] at hx ⊢
          rcases hx with hx | hx
          · left; exact hx
          · right; exact hmono x hx
        · simp only [collectTestIds, List.flatMap_cons, List.mem_append]
          right; exact hmem

theorem run_grows : ∀ (l : List TestIdInsertion) (s : List JSXElem)
    (E : List String), Grows s (runInsertions s E l).elems := by
  intro l
  induction l with
  | nil => intro s E; exact grows_refl s
  | cons ins rest ih =>
    intro s E
    by_cases hmem : ins.testId ∈ E
    · simpa only [runInsertions, if_pos hmem] using ih s E
    · cases hadd : addTestIdToElement s ins with
      | some s' =>
        simp only [runInsertions, if_neg hmem, hadd]
        exact grows_trans (addTestId_grows hadd) (ih s' (ins.testId :: E))
      | none => simpa only [runInsertions, if_neg hmem, hadd] using ih s E

theorem run_ids_mono : ∀ (l : List TestIdInsertion) (s : List JSXElem)
    (E : List String) (x : String), x ∈ collectTestIds s →
    x ∈ collectTestIds (runInsertions s E l).elems := by
  intro l
  induction l with
  | nil => intro s E x hx; exact hx
  | cons ins rest ih =>
    intro s E x hx
    by_cases hmem : ins.testId ∈ E
    · simpa only [runInsertions, if_pos hmem] using ih s E x hx
    · cases hadd : addTestIdToElement s ins with
      | some s' =>
        simp only [runInsertions, if_neg hmem, hadd]
        exact ih s' (ins.testId :: E) x ((addTestId_collect_mono hadd).1 x hx)
      | none => simpa only [runInsertions, if_neg hmem, hadd] using ih s E x hx

theorem run_final_prop : ∀ (l : List TestIdInsertion) (s : List JSXElem)
    (E : List String), (∀ x ∈ E, x ∈ collectTestIds s) →
    ∀ i ∈ l, i.testId ∈ collectTestIds (runInsertions s E l).elems ∨
      addTestIdToElement (runInsertions s E l).elems i = none := by
  intro l
  induction l with
  | nil => intro s E _ i hi; cases hi
  | cons ins rest ih =>
    intro s E hE i hi
    by_cases hmem : ins.testId ∈ E
    · simp only [runInsertions, if_pos hmem]
      rcases List.mem_cons.mp hi with rfl | hi
      · left
        exact run_ids_mono rest s E i.testId (hE i.testId hmem)
      · exact ih s E hE i hi
    · cases hadd : addTestIdToElement s ins with
      | some s' =>
        simp only [runInsertions, if_neg hmem, hadd]
        have hE' : ∀ x ∈ ins.testId :: E, x ∈ collectTestIds s' := by
          intro x hx
          rcases List.mem_cons.mp hx with rfl | hx
          · exact (addTestId_collect_mono hadd).2
          · exact (addTestId_collect_mono hadd).1 x (hE x hx)
        rcases List.mem_cons.mp hi with rfl | hi
        · left
          exact run_ids_mono rest s' (i.testId :: E) i.testId
            ((addTestId_collect_mono hadd).2)
        · exact ih s' (ins.testId :: E) hE' i hi
      | none =>
        simp only [runInsertions, if_neg hmem, hadd]
        rcases List.mem_cons.mp hi with rfl | hi
        · right
          exact addTestId_none_mono (run_grows rest s E) hadd
        · exact ih s E hE i hi

theorem run_skip_all : ∀ (l : List TestIdInsertion) (s : List JSXElem),
    (∀ i ∈ l, i.testId ∈ collectTestIds s ∨ addTestIdToElement s i = none) →
    runInsertions s (collectTestIds s) l =
      ⟨s, 0, l.map (fun i => (i.testId,
        if i.testId ∈ collectTestIds s then alreadyExistsReason i.testId
        else notFoundReason i))⟩ := by
  intro l
  induction l with
  | nil => intro s _; rfl
  | cons ins rest ih =>
    intro s hall
    have hrest := ih s (fun i hi => hall i (List.mem_cons_of_mem _ hi))
    by_cases hmem : ins.testId ∈ collectTestIds s
    · simp only [runInsertions, if_pos hmem, hrest, List.map_cons, if_pos hmem]
    · have hnone : addTestIdToElement s ins = none := by
        rcases hall ins (List.mem_cons_self _ _) with hmem' | hnone
        · exact absurd hmem' hmem
        · exact hnone
      simp only [runInsertions, if_neg hmem, hnone, hrest, List.map_cons, if_neg hmem]

/-- C2 (amended): re-running `insertTestIds` with the same insertion list on
the output of a first run inserts nothing, leaves the file unchanged, and
skips every insertion — with an already-exists reason when its identifier
occurs in the first run's output, and with a could-not-find reason
otherwise. -/
theorem insertTestIds_idempotent (elems : List JSXElem)
    (insertions : List TestIdInsertion) :
    insertTestIds (insertTestIds elems insertions).elems insertions =
      ⟨(insertTestIds elems insertions).elems, 0,
        (sortInsertions insertions).map (fun i => (i.testId,
          if i.testId ∈ collectTestIds (insertTestIds elems insertions).elems
          then alreadyExistsReason i.testId else notFoundReason i))⟩ := by
  have hprop := run_final_prop (sortInsertions insertions) elems
    (collectTestIds elems) (fun x hx => hx)
  exact run_skip_all (sortInsertions insertions)
    (insertTestIds elems insertions).elems hprop

/-- Counterexample to C2 as stated: for a file with no JSX element at the
planned position, the second run's skip reason is "Could not find JSX
element …", not an already-exists reason. -/
theorem insertTestIds_idempotent_counterexample :
    ¬ (∀ p ∈ (insertTestIds
        (insertTestIds ([] : List JSXElem)
          [⟨"a.tsx", 5, 0, "a", "div", none⟩]).elems
        [⟨"a.tsx", 5, 0, "a", "div", none⟩]).skipped,
        p.2 = alreadyExistsReason p.1) := by
  decide

/-- Claim-side variant of `addTestIdToElement` with no column constraint at
all (what "treats the column as no column constraint" means): an element on
the target line matches regardless of its start column. -/
def addTestIdLineOnly (elems : List JSXElem) (ins : TestIdInsertion) :
    Option (List JSXElem) :=
  match elems with
  | [] => none
  | e :: rest =>
    if (e.line == ins.lineNumber) && tagMatches e ins && !elemHasTestId e then
      some ({ e with attrs := insertAfterLastSpread e.attrs (JSXAttr.lit "data-testid" ins.testId) } :: rest)
    else
      (addTestIdLineOnly rest ins).map (e :: ·)

/-- C9: when the planned insertion's column is exactly 0, the executor
behaves as if there were no column constraint: the attribute goes to the
first tag-matching, not-yet-tagged element on the target line, whatever its
actual column. -/
theorem addTestId_columnZero_wildcard (elems : List JSXElem)
    (ins : TestIdInsertion) (h : ins.columnNumber = 0) :
    addTestIdToElement elems ins = addTestIdLineOnly elems ins := by
  induction elems with
  | nil => rfl
  | cons e rest ih =>
    have hpos : posMatches e ins = (e.line == ins.lineNumber) := by
      simp [posMatches, h]
    simp only [addTestIdToElement, addTestIdLineOnly, hpos, ih]

/-- Witness for C9: an element starting at column 7 still receives the
attribute from an insertion whose column is reported as 0. -/
theorem addTestId_columnZero_wildcard_witness :
    addTestIdToElement [⟨"button", 4, 7, []⟩] ⟨"f.tsx", 4, 0, "t1", "button", none⟩
        = addTestIdLineOnly [⟨"button", 4, 7, []⟩] ⟨"f.tsx", 4, 0, "t1", "button", none⟩ ∧
      addTestIdToElement [⟨"button", 4, 7, []⟩] ⟨"f.tsx", 4, 0, "t1", "button", none⟩
        = some [⟨"button", 4, 7, [JSXAttr.lit "data-testid" "t1"]⟩] :=
  ⟨addTestId_columnZero_wildcard _ _ rfl, by decide⟩

/-! ### Counting inserted identifiers (for the duplicate-identifier invariant) -/

/-- Number of literal `data-testid={t}` attributes in an attribute list. -/
def countAttr (attrs : List JSXAttr) (t : String) : Nat :=
  (attrs.filter (fun a => a == JSXAttr.lit "data-testid" t)).length

/-- Number of literal `data-testid={t}` attributes in the whole file. -/
def countId (elems : List JSXElem) (t : String) : Nat :=
  (elems.map (fun e => countAttr e.attrs t)).sum

theorem countAttr_middle (pre post : List JSXAttr) (na : JSXAttr) (t : String) :
    countAttr (pre ++ na :: post) t =
      countAttr pre t + countAttr post t
        + (if na = JSXAttr.lit "data-testid" t then 1 else 0) := by
  simp only [countAttr, List.filter_append, List.length_append, List.filter_cons]
  by_cases hna : na = JSXAttr.lit "data-testid" t
  · rw [if_pos hna, if_pos (by simpa using hna)]
    simp
    try omega
  · rw [if_neg hna, if_neg (by simpa using hna)]
    omega

theorem countAttr_insertAfterLastSpread (attrs : List JSXAttr) (na : JSXAttr)
    (t : String) :
    countAttr (insertAfterLastSpread attrs na) t =
      countAttr attrs t + (if na = JSXAttr.lit "data-testid" t then 1 else 0) := by
  cases hidx : lastSpreadIndex attrs with
  | none =>
    simp only [insertAfterLastSpread, hidx]
    rw [show attrs ++ [na] = attrs ++ na :: [] from rfl, countAttr_middle]
    simp [countAttr]
  | some i =>
    simp only [insertAfterLastSpread, hidx]
    rw [countAttr_middle]
    conv_rhs => rw [← List.take_append_drop (i + 1) attrs]
    simp only [countAttr, List.filter_append, List.length_append]
    try omega

theorem countId_addTestId {s s' : List JSXElem} {ins : TestIdInsertion}
    (h : addTestIdToElement s ins = some s') (t : String) :
    countId s' t = countId s t + (if ins.testId = t then 1 else 0) := by
  induction s generalizing s' with
  | nil => simp [addTestIdToElement] at h
  | cons e rest ih =>
    by_cases hc : (posMatches e ins && tagMatches e ins && !elemHasTestId e) = true
    · simp only [addTestIdToElement, if_pos hc, Option.some.injEq] at h
      subst h
      simp only [countId, List.map_cons, List.sum_cons,
        countAttr_insertAfterLastSpread]
      have : (JSXAttr.lit "data-testid" ins.testId = JSXAttr.lit "data-testid" t)
          ↔ ins.testId = t := by simp
      split <;> rename_i hif
      · rw [if_pos (this.mp hif)]; omega
      · rw [if_neg (fun he => hif (by rw [he]))]; omega
    · simp only [addTestIdToElement, if_neg hc] at h
      cases hrec : addTestIdToElement rest ins with
      | none => rw [hrec] at h; simp at h
      | some rest' =>
        rw [hrec] at h
        simp only [Option.map_some', Option.some.injEq] at h
        subst h
        simp only [countId, List.map_cons, List.sum_cons] at *
        rw [ih hrec]
        omega

theorem run_countId_mem : ∀ (l : List TestIdInsertion) (s : List JSXElem)
    (E : List String) (t : String), t ∈ E →
    countId (runInsertions s E l).elems t = countId s t := by
  intro l
  induction l with
  | nil => intro s E t _; rfl
  | cons ins rest ih =>
    intro s E t ht
    by_cases hmem : ins.testId ∈ E
    · simpa only [runInsertions, if_pos hmem] using ih s E t ht
    · cases hadd : addTestIdToElement s ins with
      | some s' =>
        simp only [runInsertions, if_neg hmem, hadd]
        have hne : ins.testId ≠ t := fun he => hmem (he ▸ ht)
        rw [ih s' (ins.testId :: E) t (List.mem_cons_of_mem _ ht),
          countId_addTestId hadd t, if_neg hne]
        omega
      | none => simpa only [runInsertions, if_neg hmem, hadd] using ih s E t ht

theorem run_countId_le : ∀ (l : List TestIdInsertion) (s : List JSXElem)
    (E : List String) (t : String),
    countId (runInsertions s E l).elems t ≤ countId s t + 1 := by
  intro l
  induction l with
  | nil => intro s E t; simp [runInsertions]
  | cons ins rest ih =>
    intro s E t
    by_cases hmem : ins.testId ∈ E
    · simpa only [runInsertions, if_pos hmem] using ih s E t
    · cases hadd : addTestIdToElement s ins with
      | some s' =>
        simp only [runInsertions, if_neg hmem, hadd]
        by_cases hts : ins.testId = t
        · rw [run_countId_mem rest s' (ins.testId :: E) t
            (hts ▸ List.mem_cons_self _ _), countId_addTestId hadd t, if_pos hts]
        · have := ih s' (ins.testId :: E) t
          rw [countId_addTestId hadd t, if_neg hts] at this
          simpa using this
      | none => simpa only [runInsertions, if_neg hmem, hadd] using ih s E t

theorem run_total : ∀ (l : List TestIdInsertion) (s : List JSXElem)
    (E : List String),
    (runInsertions s E l).inserted + (runInsertions s E l).skipped.length
      = l.length := by
  intro l
  induction l with
  | nil => intro s E; rfl
  | cons ins rest ih =>
    intro s E
    by_cases hmem : ins.testId ∈ E
    · simp only [runInsertions, if_pos hmem, List.length_cons, List.length]
      rw [← ih s E]
      omega
    · cases hadd : addTestIdToElement s ins with
      | some s' =>
        simp only [runInsertions, if_neg hmem, hadd, List.length_cons]
        rw [← ih s' (ins.testId :: E)]
        omega
      | none =>
        simp only [runInsertions, if_neg hmem, hadd, List.length_cons]
        rw [← ih s E]
        omega

theorem run_skip_mem : ∀ (l : List TestIdInsertion) (s : List JSXElem)
    (E : List String) (i : TestIdInsertion), i ∈ l → i.testId ∈ E →
    (i.testId, alreadyExistsReason i.testId) ∈ (runInsertions s E l).skipped := by
  intro l
  induction l with
  | nil => intro s E i hi; cases hi
  | cons ins rest ih =>
    intro s E i hi hiE
    by_cases hmem : ins.testId ∈ E
    · simp only [runInsertions, if_pos hmem]
      rcases List.mem_cons.mp hi with rfl | hi
      · exact List.mem_cons_self _ _
      · exact List.mem_cons_of_mem _ (ih s E i hi hiE)
    · cases hadd : addTestIdToElement s ins with
      | some s' =>
        simp only [runInsertions, if_neg hmem, hadd]
        rcases List.mem_cons.mp hi with rfl | hi
        · exact absurd hiE hmem
        · exact ih s' (ins.testId :: E) i hi (List.mem_cons_of_mem _ hiE)
      | none =>
        simp only [runInsertions, if_neg hmem, hadd]
        rcases List.mem_cons.mp hi with rfl | hi
        · exact absurd hiE hmem
        · exact List.mem_cons_of_mem _ (ih s E i hi hiE)

theorem insertSortedDesc_perm (x : TestIdInsertion) (l : List TestIdInsertion) :
    (insertSortedDesc x l).Perm (x :: l) := by
  induction l with
  | nil => exact List.Perm.refl _
  | cons y ys ih =>
    by_cases h : insBefore x y = true
    · simp only [insertSortedDesc, if_pos h]
      exact List.Perm.refl _
    · simp only [insertSortedDesc, if_neg h]
      exact (List.Perm.cons y ih).trans (List.Perm.swap x y ys)

theorem sortInsertions_perm (l : List TestIdInsertion) :
    (sortInsertions l).Perm l := by
  have haux : ∀ (l acc : List TestIdInsertion),
      (l.foldl (fun acc x => insertSortedDesc x acc) acc).Perm (acc ++ l) := by
    intro l
    induction l with
    | nil => intro acc; simp
    | cons x rest ih =>
      intro acc
      simp only [List.foldl_cons]
      refine (ih (insertSortedDesc x acc)).trans ?_
      have h1 : (insertSortedDesc x acc ++ rest).Perm ((x :: acc) ++ rest) :=
        (insertSortedDesc_perm x acc).append_right rest
      refine h1.trans ?_
      simpa using List.perm_middle.symm
  simpa using haux l []

theorem mem_sortInsertions {i : TestIdInsertion} {l : List TestIdInsertion} :
    i ∈ sortInsertions l ↔ i ∈ l :=
  (sortInsertions_perm l).mem_iff

theorem addTestId_collect_inv {s s' : List JSXElem} {ins : TestIdInsertion}
    (h : addTestIdToElement s ins = some s') :
    ∀ x ∈ collectTestIds s', x = ins.testId ∨ x ∈ collectTestIds s := by
  induction s generalizing s' with
  | nil => simp [addTestIdToElement] at h
  | cons e rest ih =>
    by_cases hc : (posMatches e ins && tagMatches e ins && !elemHasTestId e) = true
    · simp only [addTestIdToElement, if_pos hc, Option.some.injEq] at h
      subst h
      intro x hx
      simp only [collectTestIds, List.flatMap_cons, List.mem_append] at hx
      rcases hx with hx | hx
      · simp only [List.mem_filterMap] at hx
        obtain ⟨a, ha, hfa⟩ := hx
        rcases (mem_insertAfterLastSpread _ _ _).mp ha with rfl | ha
        · left
          simpa using hfa.symm
        · right
          simp only [collectTestIds, List.flatMap_cons, List.mem_append]
          left
          exact List.mem_filterMap.mpr ⟨a, ha, hfa⟩
      · right
        simp only [collectTestIds, List.flatMap_cons, List.mem_append]
        right
        exact hx
    · simp only [addTestIdToElement, if_neg hc] at h
      cases hrec : addTestIdToElement rest ins with
      | none => rw [hrec] at h; simp at h
      | some rest' =>
        rw [hrec] at h
        simp only [Option.map_some', Option.some.injEq] at h
        subst h
        intro x hx
        simp only [collectTestIds, List.flatMap_cons, List.mem_append] at hx
        rcases hx with hx | hx
        · right
          simp only [collectTestIds, List.flatMap_cons, List.mem_append]
          left
          exact hx
        · rcases ih hrec x hx with h1 | h1
          · left; exact h1
          · right
            simp only [collectTestIds, List.flatMap_cons, List.mem_append]
            right
            exact h1

theorem collect_inv_update {s s' : List JSXElem} {E : List String}
    {k : TestIdInsertion} (hE : ∀ x, x ∈ E ↔ x ∈ collectTestIds s)
    (hadd : addTestIdToElement s k = some s') :
    ∀ x, x ∈ k.testId :: E ↔ x ∈ collectTestIds s' := by
  intro x
  constructor
  · intro hx
    rcases List.mem_cons.mp hx with rfl | hx
    · exact (addTestId_collect_mono hadd).2
    · exact (addTestId_collect_mono hadd).1 x ((hE x).mp hx)
  · intro hx
    rcases addTestId_collect_inv hadd x hx with rfl | hx
    · exact List.mem_cons_self _ _
    · exact List.mem_cons_of_mem _ ((hE x).mpr hx)

theorem run_dup_skip :
    ∀ (l₁ : List TestIdInsertion) (s : List JSXElem) (E : List String)
      (i : TestIdInsertion) (l₂ : List TestIdInsertion),
      (∀ x, x ∈ E ↔ x ∈ collectTestIds s) →
      i.testId ∈ collectTestIds (runInsertions s E l₁).elems →
      (i.testId, alreadyExistsReason i.testId)
        ∈ (runInsertions s E (l₁ ++ i :: l₂)).skipped := by
  intro l₁
  induction l₁ with
  | nil =>
    intro s E i l₂ hE hmem
    have hiE : i.testId ∈ E := (hE i.testId).mpr hmem
    simp only [List.nil_append, runInsertions, if_pos hiE]
    exact List.mem_cons_self _ _
  | cons j l₁' ih =>
    intro s E i l₂ hE hmem
    by_cases hjE : j.testId ∈ E
    · simp only [runInsertions, if_pos hjE] at hmem
      simp only [List.cons_append, runInsertions, if_pos hjE]
      exact List.mem_cons_of_mem _ (ih s E i l₂ hE hmem)
    · cases hadd : addTestIdToElement s j with
      | some s' =>
        simp only [runInsertions, if_neg hjE, hadd] at hmem
        simp only [List.cons_append, runInsertions, if_neg hjE, hadd]
        exact ih s' (j.testId :: E) i l₂ (collect_inv_update hE hadd) hmem
      | none =>
        simp only [runInsertions, if_neg hjE, hadd] at hmem
        simp only [List.cons_append, runInsertions, if_neg hjE, hadd]
        exact List.mem_cons_of_mem _ (ih s E i l₂ hE hmem)

theorem run_locates_ids :
    ∀ (l₁ : List TestIdInsertion) (s : List JSXElem) (E : List String)
      (j : TestIdInsertion) (l₂ : List TestIdInsertion),
      (∀ x, x ∈ E ↔ x ∈ collectTestIds s) →
      (addTestIdToElement (runInsertions s E l₁).elems j ≠ none ∨
        j.testId ∈ collectTestIds (runInsertions s E l₁).elems) →
      j.testId ∈ collectTestIds (runInsertions s E (l₁ ++ j :: l₂)).elems := by
  intro l₁
  induction l₁ with
  | nil =>
    intro s E j l₂ hE hloc
    simp only [List.nil_append]
    by_cases hjE : j.testId ∈ E
    · simp only [runInsertions, if_pos hjE]
      exact run_ids_mono l₂ s E j.testId ((hE j.testId).mp hjE)
    · rcases hloc with hloc | hloc
      · cases hadd : addTestIdToElement s j with
        | none => exact absurd hadd hloc
        | some s' =>
          simp only [runInsertions, if_neg hjE, hadd]
          exact run_ids_mono l₂ s' (j.testId :: E) j.testId
            (addTestId_collect_mono hadd).2
      · exact absurd ((hE j.testId).mpr hloc) hjE
  | cons k l₁' ih =>
    intro s E j l₂ hE hloc
    by_cases hkE : k.testId ∈ E
    · simp only [runInsertions, if_pos hkE] at hloc
      simp only [List.cons_append, runInsertions, if_pos hkE]
      exact ih s E j l₂ hE hloc
    · cases hadd : addTestIdToElement s k with
      | some s' =>
        simp only [runInsertions, if_neg hkE, hadd] at hloc
        simp only [List.cons_append, runInsertions, if_neg hkE, hadd]
        exact ih s' (k.testId :: E) j l₂ (collect_inv_update hE hadd) hloc
      | none =>
        simp only [runInsertions, if_neg hkE, hadd] at hloc
        simp only [List.cons_append, runInsertions, if_neg hkE, hadd]
        exact ih s E j l₂ hE hloc

/-- C10: every insertion is either applied or skipped (`inserted` plus the
skip-list length equals the insertion-list length); the output never gains
more than one `data-testid` attribute per identifier value; identifiers
already present in the file are never inserted again; every insertion whose
identifier already occurs in the file is skipped with an already-exists
reason; every insertion processed after the run's evolving file already
carries its identifier is skipped with an already-exists reason; and — the
within-run duplicate case — whenever two insertions in the applied
(sorted) order carry the same identifier and the earlier one locates a
target element when its turn comes (so it is applied, or its identifier was
already present), the later one is skipped with an already-exists reason. -/
theorem insertTestIds_duplicate_invariant (elems : List JSXElem)
    (insertions : List TestIdInsertion) :
    ((insertTestIds elems insertions).inserted
        + (insertTestIds elems insertions).skipped.length = insertions.length) ∧
    (∀ t, countId (insertTestIds elems insertions).elems t ≤ countId elems t + 1) ∧
    (∀ t, t ∈ collectTestIds elems →
      countId (insertTestIds elems insertions).elems t = countId elems t) ∧
    (∀ i ∈ insertions, i.testId ∈ collectTestIds elems →
      (i.testId, alreadyExistsReason i.testId)
        ∈ (insertTestIds elems insertions).skipped) ∧
    (∀ l₁ i l₂, sortInsertions insertions = l₁ ++ i :: l₂ →
      i.testId ∈ collectTestIds
        (runInsertions elems (collectTestIds elems) l₁).elems →
      (i.testId, alreadyExistsReason i.testId)
        ∈ (insertTestIds elems insertions).skipped) ∧
    (∀ l₁ j l₂ i l₃, sortInsertions insertions = l₁ ++ j :: (l₂ ++ i :: l₃) →
      j.testId = i.testId →
      (addTestIdToElement
          (runInsertions elems (collectTestIds elems) l₁).elems j ≠ none ∨
        j.testId ∈ collectTestIds
          (runInsertions elems (collectTestIds elems) l₁).elems) →
      (i.testId, alreadyExistsReason i.testId)
        ∈ (insertTestIds elems insertions).skipped) := by
  refine ⟨?_, ?_, ?_, ?_, ?_, ?_⟩
  · rw [show insertTestIds elems insertions
      = runInsertions elems (collectTestIds elems) (sortInsertions insertions) from rfl,
      run_total]
    have := sortInsertions_perm insertions
    exact this.length_eq
  · intro t
    exact run_countId_le (sortInsertions insertions) elems (collectTestIds elems) t
  · intro t ht
    exact run_countId_mem (sortInsertions insertions) elems (collectTestIds elems) t ht
  · intro i hi hid
    exact run_skip_mem (sortInsertions insertions) elems (collectTestIds elems) i
      (mem_sortInsertions.mpr hi) hid
  · intro l₁ i l₂ hsplit hmem
    show (i.testId, alreadyExistsReason i.testId)
      ∈ (runInsertions elems (collectTestIds elems) (sortInsertions insertions)).skipped
    rw [hsplit]
    exact run_dup_skip l₁ elems (collectTestIds elems) i l₂ (fun x => Iff.rfl) hmem
  · intro l₁ j l₂ i l₃ hsplit hdup hloc
    have hmem := run_locates_ids l₁ elems (collectTestIds elems) j l₂
      (fun x => Iff.rfl) hloc
    show (i.testId, alreadyExistsReason i.testId)
      ∈ (runInsertions elems (collectTestIds elems) (sortInsertions insertions)).skipped
    rw [hsplit, show l₁ ++ j :: (l₂ ++ i :: l₃) = (l₁ ++ j :: l₂) ++ i :: l₃ by simp]
    exact run_dup_skip (l₁ ++ j :: l₂) elems (collectTestIds elems) i l₃
      (fun x => Iff.rfl) (by rw [← hdup]; exact hmem)

/-- Witness for C10, exercising both duplicate cases: a file already
containing `data-testid="x"` with duplicate insertions of `x` (pre-existing
case), and a file with no identifiers at all where the first of two fresh
insertions of `x` is applied and the second is skipped with the
already-exists reason (within-run duplicate case). -/
theorem insertTestIds_duplicate_invariant_witness :
    countId (insertTestIds [⟨"div", 1, 0, [JSXAttr.lit "data-testid" "x"]⟩]
        [⟨"f.tsx", 2, 0, "x", "div", none⟩, ⟨"f.tsx", 3, 0, "x", "div", none⟩]).elems "x"
      = countId [⟨"div", 1, 0, [JSXAttr.lit "data-testid" "x"]⟩] "x" ∧
    (("x", alreadyExistsReason "x")
      ∈ (insertTestIds [⟨"div", 1, 0, [JSXAttr.lit "data-testid" "x"]⟩]
        [⟨"f.tsx", 2, 0, "x", "div", none⟩, ⟨"f.tsx", 3, 0, "x", "div", none⟩]).skipped) ∧
    (("x", alreadyExistsReason "x")
      ∈ (insertTestIds [⟨"div", 2, 0, []⟩, ⟨"div", 3, 0, []⟩]
        [⟨"f.tsx", 2, 0, "x", "div", none⟩, ⟨"f.tsx", 3, 0, "x", "div", none⟩]).skipped) :=
  ⟨((insertTestIds_duplicate_invariant
      [⟨"div", 1, 0, [JSXAttr.lit "data-testid" "x"]⟩]
      [⟨"f.tsx", 2, 0, "x", "div", none⟩, ⟨"f.tsx", 3, 0, "x", "div", none⟩]).2.2.1
        "x" (by decide)),
   ((insertTestIds_duplicate_invariant
      [⟨"div", 1, 0, [JSXAttr.lit "data-testid" "x"]⟩]
      [⟨"f.tsx", 2, 0, "x", "div", none⟩, ⟨"f.tsx", 3, 0, "x", "div", none⟩]).2.2.2.1
        ⟨"f.tsx", 2, 0, "x", "div", none⟩ (by decide) (by decide)),
   ((insertTestIds_duplicate_invariant
      [⟨"div", 2, 0, []⟩, ⟨"div", 3, 0, []⟩]
      [⟨"f.tsx", 2, 0, "x", "div", none⟩, ⟨"f.tsx", 3, 0, "x", "div", none⟩]).2.2.2.2.2
        [] ⟨"f.tsx", 3, 0, "x", "div", none⟩ [] ⟨"f.tsx", 2, 0, "x", "div", none⟩ []
        (by decide) (by decide) (Or.inl (by decide)))⟩

/-! ## Interaction data model (`shared/src/types.ts`) -/

/-- The interaction kinds of `InteractionType`. -/
inductive InteractionType where
  | click | dblclick | input | change | submit | keydown | keyup
  | focus | blur | navigation | scroll | hover
  deriving Repr, DecidableEq

/-- `ElementInfo` from `shared/src/types.ts`: the captured target-element
descriptor. -/
structure ElementInfo where
  tagName : String := ""
  cssSelector : String := ""
  textContent : Option String := none
  attributes : List (String × String) := []
  existingTestId : Option String := none
  ariaLabel : Option String := none
  ariaRole : Option String := none
  innerText : Option String := none
  placeholder : Option String := none
  inputType : Option String := none
  value : Option String := none
  deriving Repr, DecidableEq

/-- `SourceLocation` from `shared/src/types.ts`. -/
structure SourceLocation where
  filePath : String
  lineNumber : Nat
  columnNumber : Nat
  componentName : Option String := none
  componentHierarchy : Option (List String) := none
  deriving Repr, DecidableEq

/-- `InteractionData` from `shared/src/types.ts` (coordinates and metadata
are never read by the embedded functions and are omitted). -/
structure InteractionData where
  id : String := ""
  type : InteractionType
  timestamp : Nat := 0
  url : String := ""
  element : ElementInfo
  source : Option SourceLocation := none
  value : Option String := none
  key : Option String := none
  deriving Repr, DecidableEq

/-! ## Interaction consolidator (`consolidateInteractions` in
`test-generator.ts`) -/

/-- The inner-while condition of the consolidator: the next event is an
`input`/`change` on the same target selector as the run's first event. -/
def sameSelRun (sel : String) (y : InteractionData) : Bool :=
  decide ((y.type = InteractionType.input ∨ y.type = InteractionType.change) ∧
    y.element.cssSelector = sel)

/-- The consolidator's inner `while`: scan forward through the run of
consecutive `input`/`change` events on `sel`, returning the run's last event
and the remainder of the list. -/
def takeRun (sel : String) (last : InteractionData) :
    List InteractionData → InteractionData × List InteractionData
  | [] => (last, [])
  | y :: ys => if sameSelRun sel y then takeRun sel y ys else (last, y :: ys)

/-- The consolidator's click test (`test-generator.ts` lines 88–99): the next
event exists, is an `input` or a `click`, shares the target selector, and is
an `input` (the conjuncts exactly as written in the source). -/
def focusClickNext (x : InteractionData) : List InteractionData → Bool
  | [] => false
  | y :: _ =>
    decide ((y.type = InteractionType.input ∨ y.type = InteractionType.click) ∧
      y.element.cssSelector = x.element.cssSelector ∧
      y.type = InteractionType.input)

theorem takeRun_snd_length_le (sel : String) :
    ∀ (l : List InteractionData) (last : InteractionData),
      (takeRun sel last l).2.length ≤ l.length := by
  intro l
  induction l with
  | nil => intro last; simp [takeRun]
  | cons y ys ih =>
    intro last
    by_cases h : sameSelRun sel y = true
    · simp only [takeRun, if_pos h]
      exact le_trans (ih y) (Nat.le_succ _)
    · simp [takeRun, if_neg h]

/-- Interaction consolidator `consolidateInteractions` from
`test-generator.ts`: collapse each run of consecutive `input`/`change`
events on one selector to its last event, drop a `click` immediately
followed by an `input` on the same selector, pass everything else through. -/
def consolidateInteractions : List InteractionData → List InteractionData
  | [] => []
  | x :: rest =>
    if x.type = InteractionType.input ∨ x.type = InteractionType.change then
      (takeRun x.element.cssSelector x rest).1 ::
        consolidateInteractions (takeRun x.element.cssSelector x rest).2
    else if x.type = InteractionType.click ∧ focusClickNext x rest = true then
      consolidateInteractions rest
    else
      x :: consolidateInteractions rest
termination_by l => l.length
decreasing_by
  all_goals simp_wf
  all_goals exact Nat.lt_succ_of_le (takeRun_snd_length_le _ _ _)

theorem dropWhileLenLe {α : Type} (p : α → Bool) :
    ∀ l : List α, (l.dropWhile p).length ≤ l.length := by
  intro l
  induction l with
  | nil => simp
  | cons y ys ih =>
    by_cases h : p y = true
    · rw [List.dropWhile_cons_of_pos h]
      exact le_trans ih (Nat.le_succ _)
    · rw [List.dropWhile_cons_of_neg h]

/-- Spec-side focus-click test (the spec's wording, without the source's
redundant `input`-or-`click` conjunct): the next event is an `input` on the
same target selector. -/
def specFocusClick (x : InteractionData) : List InteractionData → Bool
  | [] => false
  | y :: _ =>
    decide (y.type = InteractionType.input ∧
      y.element.cssSelector = x.element.cssSelector)

/-- Spec-side consolidator, written as §4.6 of the spec describes it: a run
of consecutive `input`/`change` events on the same target selector collapses
to the last event of the run, a `click` immediately followed by an `input`
on the same selector is dropped, every other event passes through. -/
def consolidateSpec : List InteractionData → List InteractionData
  | [] => []
  | x :: rest =>
    if x.type = InteractionType.input ∨ x.type = InteractionType.change then
      (x :: rest.takeWhile (sameSelRun x.element.cssSelector)).getLast
          (List.cons_ne_nil _ _) ::
        consolidateSpec (rest.dropWhile (sameSelRun x.element.cssSelector))
    else if x.type = InteractionType.click ∧ specFocusClick x rest = true then
      consolidateSpec rest
    else
      x :: consolidateSpec rest
termination_by l => l.length
decreasing_by
  all_goals simp_wf
  all_goals exact Nat.lt_succ_of_le (dropWhileLenLe _ _)

theorem takeRun_eq_takeWhile (sel : String) :
    ∀ (l : List InteractionData) (last : InteractionData),
      takeRun sel last l =
        ((last :: l.takeWhile (sameSelRun sel)).getLast (List.cons_ne_nil _ _),
          l.dropWhile (sameSelRun sel)) := by
  intro l
  induction l with
  | nil => intro last; simp [takeRun]
  | cons y ys ih =>
    intro last
    by_cases h : sameSelRun sel y = true
    · rw [takeRun, if_pos h, ih y, List.takeWhile_cons_of_pos h,
        List.dropWhile_cons_of_pos h]
      refine Prod.ext ?_ rfl
      simp only
      rw [List.getLast_cons (List.cons_ne_nil _ _)]
    · rw [takeRun, if_neg h, List.takeWhile_cons_of_neg h,
        List.dropWhile_cons_of_neg h]
      simp

theorem focusClickNext_eq_spec (x : InteractionData)
    (rest : List InteractionData) :
    focusClickNext x rest = specFocusClick x rest := by
  cases rest with
  | nil => rfl
  | cons y ys =>
    simp only [focusClickNext, specFocusClick, decide_eq_decide]
    constructor
    · rintro ⟨_, hsel, hty⟩; exact ⟨hty, hsel⟩
    · rintro ⟨hty, hsel⟩; exact ⟨Or.inl hty, hsel, hty⟩

/-- C4: the consolidator computes exactly the single-pass described by the
spec: each maximal run of consecutive `input`/`change` events on one
selector collapses to its last event, a `click` immediately followed by an
`input` on the same selector is dropped, and all other events pass through
in order. -/
theorem consolidateInteractions_eq_spec :
    ∀ l, consolidateInteractions l = consolidateSpec l := by
  have H : ∀ (n : Nat) (l : List InteractionData), l.length ≤ n →
      consolidateInteractions l = consolidateSpec l := by
    intro n
    induction n with
    | zero =>
      intro l hl
      have : l = [] := List.length_eq_zero.mp (Nat.le_zero.mp hl)
      subst this
      simp [consolidateInteractions, consolidateSpec]
    | succ n ih =>
      intro l hl
      match l with
      | [] => simp [consolidateInteractions, consolidateSpec]
      | x :: rest =>
        by_cases hic : x.type = InteractionType.input ∨ x.type = InteractionType.change
        · rw [consolidateInteractions, if_pos hic, consolidateSpec, if_pos hic,
            takeRun_eq_takeWhile]
          simp only
          congr 1
          apply ih
          have := dropWhileLenLe (sameSelRun x.element.cssSelector) rest
          simp only [List.length_cons] at hl
          omega
        · by_cases hck : x.type = InteractionType.click ∧ focusClickNext x rest = true
          · rw [consolidateInteractions, if_neg hic, if_pos hck, consolidateSpec,
              if_neg hic, if_pos (by rwa [← focusClickNext_eq_spec])]
            apply ih
            simp only [List.length_cons] at hl
            omega
          · rw [consolidateInteractions, if_neg hic, if_neg hck, consolidateSpec,
              if_neg hic, if_neg (by rwa [focusClickNext_eq_spec] at hck)]
            congr 1
            apply ih
            simp only [List.length_cons] at hl
            omega
  intro l
  exact H l.length l (le_refl _)

/-- Witness for C4 at the spec's example: `[click(#email), input(#email,"a"),
input(#email,"ab"), click(#submit)]` consolidates to `[input(#email,"ab"),
click(#submit)]`. -/
theorem consolidateInteractions_eq_spec_witness :
    consolidateInteractions
      [⟨"1", InteractionType.click, 0, "u", { cssSelector := "#email" }, none, none, none⟩,
       ⟨"2", InteractionType.input, 1, "u", { cssSelector := "#email" }, none, some "a", none⟩,
       ⟨"3", InteractionType.input, 2, "u", { cssSelector := "#email" }, none, some "ab", none⟩,
       ⟨"4", InteractionType.click, 3, "u", { cssSelector := "#submit" }, none, none, none⟩]
    = [⟨"3", InteractionType.input, 2, "u", { cssSelector := "#email" }, none, some "ab", none⟩,
       ⟨"4", InteractionType.click, 3, "u", { cssSelector := "#submit" }, none, none, none⟩] := by
  rw [consolidateInteractions_eq_spec]
  simp [consolidateSpec, specFocusClick, sameSelRun]

/-! ## Naming engine (`naming-strategies` part of `react-analyzer.ts`) -/

/-- ASCII range test for the regex class `[a-z]`. -/
def isLowerAZ (c : Char) : Bool := decide (97 ≤ c.toNat ∧ c.toNat ≤ 122)

/-- ASCII range test for the regex class `[A-Z]`. -/
def isUpperAZ (c : Char) : Bool := decide (65 ≤ c.toNat ∧ c.toNat ≤ 90)

/-- ASCII digit test. -/
def isDigitC (c : Char) : Bool := decide (48 ≤ c.toNat ∧ c.toNat ≤ 57)

/-- Characters matched by the regex class `[\s_]` (common whitespace plus
underscore; NBSP included for the `\s` Unicode class). -/
def isSpaceOrUnderscore (c : Char) : Bool :=
  decide (c.toNat ∈ ([9, 10, 11, 12, 13, 32, 160] : List Nat)) || c == '_'

/-- The replace `/([a-z])([A-Z])/g → "$1-$2"`: insert a hyphen between every
lowercase/uppercase adjacent pair. -/
def kebabCamel : List Char → List Char
  | [] => []
  | [c] => [c]
  | a :: b :: rest =>
    if isLowerAZ a && isUpperAZ b then a :: '-' :: kebabCamel (b :: rest)
    else a :: kebabCamel (b :: rest)

/-- The replace `/[\s_]+/g → "-"`: each maximal run of whitespace or
underscores becomes a single hyphen (emitted at the end of the run). -/
def collapseWs : List Char → List Char
  | [] => []
  | c :: rest =>
    if isSpaceOrUnderscore c then
      match rest with
      | d :: _ =>
        if isSpaceOrUnderscore d then collapseWs rest else '-' :: collapseWs rest
      | [] => ['-']
    else c :: collapseWs rest

/-- `toKebab` from the naming strategies: camel-case hyphenation, whitespace
and underscore collapsing, removal of everything outside `[a-zA-Z0-9-]`, then
lower-casing. -/
def toKebab (s : String) : String :=
  ⟨((collapseWs (kebabCamel s.data)).filter
      (fun c => isLowerAZ c || isUpperAZ c || isDigitC c || c == '-')).map
    asciiLowerChar⟩

/-- The replace of every hyphen run by a single hyphen (the first cleanup
step of `cleanSegment`). -/
def collapseHyphens : List Char → List Char
  | [] => []
  | c :: rest =>
    if c == '-' then
      match rest with
      | d :: _ =>
        if d == '-' then collapseHyphens rest else '-' :: collapseHyphens rest
      | [] => ['-']
    else c :: collapseHyphens rest

/-- Drop a trailing hyphen (the `-$` alternative of `/^-|-$/g`). -/
def dropFinalHyphen (l : List Char) : List Char :=
  if l.getLast? = some '-' then l.dropLast else l

/-- The replace `/^-|-$/g → ""`: remove one leading and one trailing
hyphen. -/
def stripEdgeHyphens : List Char → List Char
  | '-' :: rest => dropFinalHyphen rest
  | l => dropFinalHyphen l

/-- `cleanSegment` from the naming strategies: kebab-case, collapse hyphen
runs, strip edge hyphens, cap the length. -/
def cleanSegment (s : String) (maxLen : Nat := 30) : String :=
  ⟨(stripEdgeHyphens (collapseHyphens (toKebab s).data)).take maxLen⟩

/-- The ordered action keywords scanned by `inferAction`. -/
def actionWords : List String :=
  ["submit", "login", "logout", "save", "delete", "cancel", "close", "open",
   "search", "add", "edit", "create", "remove"]

/-- `inferAction` from the naming strategies: input-type keyword, then first
action keyword contained in the visible text, then a literal `type=submit`
attribute, then the (truncated) accessible label. -/
def inferAction (element : ElementInfo) : Option String :=
  if element.inputType = some "submit" then some "submit"
  else if element.inputType = some "email" then some "email"
  else if element.inputType = some "password" then some "password"
  else if element.inputType = some "search" then some "search"
  else
    match actionWords.find? (fun w =>
      containsSubstr (asciiLower (firstTruthyStr
        [element.textContent, element.innerText])) w) with
    | some w => some w
    | none =>
      if attrLookup element.attributes "type" = some "submit" then some "submit"
      else
        match element.ariaLabel with
        | some lab => if lab = "" then none else some (cleanSegment lab 20)
        | none => none

/-- `inferIdentifier` from the naming strategies: accessible label, then
text content, then placeholder. -/
def inferIdentifier (element : ElementInfo) : Option String :=
  let s := firstTruthyStr [element.ariaLabel, element.textContent, element.placeholder]
  if s = "" then none else some s

/-- The shared tail of every naming strategy:
`parts.join('-') || element-${Date.now()}`.  The clock read `Date.now()` is
modelled as the explicit argument `now`. -/
def finishParts (parts : List String) (now : Nat) : String :=
  if String.intercalate "-" parts = "" then "element-" ++ natToString now
  else String.intercalate "-" parts

/-- The parts array built by the `componentAction` strategy. -/
def componentActionParts (element : ElementInfo) (source : Option SourceLocation)
    (action : Option String) : List String :=
  (match source with
   | some src =>
     match src.componentName with
     | some cn => if cn = "" then [] else [cleanSegment cn]
     | none => []
   | none => []) ++
  (match (match action with
          | some a => if a = "" then inferAction element else some a
          | none => inferAction element) with
   | some hint => if hint = "" then [] else [cleanSegment hint]
   | none => []) ++
  [cleanSegment element.tagName]

/-- The `componentAction` naming strategy. -/
def componentAction (element : ElementInfo) (source : Option SourceLocation)
    (action : Option String) (now : Nat) : String :=
  finishParts (componentActionParts element source action) now

/-- The parts array built by the `hierarchical` strategy. -/
def hierarchicalParts (element : ElementInfo)
    (source : Option SourceLocation) : List String :=
  (match source with
   | some src =>
     match src.componentHierarchy with
     | some h =>
       if h.length > 0 then ((h.take 3).reverse).map (fun c => cleanSegment c)
       else []
     | none => []
   | none => []) ++
  [match inferIdentifier element with
   | some ident => cleanSegment ident
   | none => cleanSegment element.tagName]

/-- The `hierarchical` naming strategy. -/
def hierarchical (element : ElementInfo) (source : Option SourceLocation)
    (now : Nat) : String :=
  finishParts (hierarchicalParts element source) now

/-- The parts array built by the `descriptive` strategy. -/
def descriptiveParts (element : ElementInfo) : List String :=
  (let label := firstTruthyStr [element.ariaLabel, element.textContent,
    element.placeholder, element.innerText]
   if label = "" then [] else [cleanSegment label 40]) ++
  [cleanSegment element.tagName]

/-- The `descriptive` naming strategy. -/
def descriptive (element : ElementInfo) (now : Nat) : String :=
  finishParts (descriptiveParts element) now

/-- The three values of `NamingStrategy.type`. -/
inductive NamingStrategyType where
  | componentAction | hierarchical | descriptive
  deriving Repr, DecidableEq

/-- `NamingStrategy` from `shared/src/types.ts`. -/
structure NamingStrategy where
  type : NamingStrategyType
  deriving Repr, DecidableEq

/-- `generateTestId` from the naming strategies: dispatch on the configured
strategy (the `default` switch branch is unreachable for the three-valued
strategy type and coincides with `component-action`). -/
def generateTestId (strategy : NamingStrategy) (element : ElementInfo)
    (source : Option SourceLocation) (action : Option String) (now : Nat) :
    String :=
  match strategy.type with
  | NamingStrategyType.componentAction => componentAction element source action now
  | NamingStrategyType.hierarchical => hierarchical element source now
  | NamingStrategyType.descriptive => descriptive element now

/-- Counterexample to C5 as stated: with an element whose every derived
segment is empty, two invocations with identical (strategy, element, source,
action) inputs but different clock readings return different strings, so the
fallback placeholder is not deterministic in those inputs. -/
theorem generateTestId_determinism_counterexample :
    ¬ (∀ n₁ n₂ : Nat,
      generateTestId ⟨NamingStrategyType.componentAction⟩
          { tagName := "", cssSelector := "x" } none none n₁ =
        generateTestId ⟨NamingStrategyType.componentAction⟩
          { tagName := "", cssSelector := "x" } none none n₂) := by
  intro h
  exact absurd (h 0 1) (by decide)

/-- C5 (amended): for every strategy and every input, the generated
identifier either is independent of the clock (whenever some derived segment
is nonempty), or is exactly the timestamp placeholder `element-<now>` —
so naming is deterministic in its inputs except for the fallback, which
depends on the invocation time. -/
theorem generateTestId_deterministic_or_timestamp (strategy : NamingStrategy)
    (element : ElementInfo) (source : Option SourceLocation)
    (action : Option String) (n₁ n₂ : Nat) :
    (generateTestId strategy element source action n₁ =
      generateTestId strategy element source action n₂) ∨
    (generateTestId strategy element source action n₁
        = "element-" ++ natToString n₁ ∧
      generateTestId strategy element source action n₂
        = "element-" ++ natToString n₂) := by
  have key : ∀ parts : List String,
      (finishParts parts n₁ = finishParts parts n₂) ∨
      (finishParts parts n₁ = "element-" ++ natToString n₁ ∧
        finishParts parts n₂ = "element-" ++ natToString n₂) := by
    intro parts
    by_cases h : String.intercalate "-" parts = ""
    · right
      constructor <;> simp [finishParts, h]
    · left
      simp [finishParts, h]
  cases strategy with
  | mk ty =>
    cases ty <;>
      simp only [generateTestId, componentAction, hierarchical, descriptive] <;>
      exact key _

/-! ## Playwright templates (`playwright-templates.ts`) -/

/-- The escape `escapeSingle`: backslash-escape backslashes, then single
quotes (two sequential global replaces). -/
def escapeSingle (s : String) : String :=
  ⟨(s.data.flatMap (fun c => if c = '\\' then ['\\', '\\'] else [c])).flatMap
    (fun c => if c = '\'' then ['\\', '\''] else [c])⟩

/-- The characters escaped by `escapeRegex`. -/
def regexSpecials : List Char :=
  ['.', '*', '+', '?', '^', '$', Char.ofNat 123, Char.ofNat 125, '(', ')',
   '|', '[', ']', '\\']

/-- The escape `escapeRegex`: backslash-prefix every regex metacharacter. -/
def escapeRegex (s : String) : String :=
  ⟨s.data.flatMap (fun c => if c ∈ regexSpecials then ['\\', c] else [c])⟩

namespace templates

def clickByTestId (testId : String) : String :=
  "await page.getByTestId('" ++ escapeSingle testId ++ "').click();"

def clickByRole (role : String) (name : Option String) : String :=
  match name with
  | some n =>
    if n = "" then "await page.getByRole('" ++ role ++ "').click();"
    else "await page.getByRole('" ++ role ++ "', \x7b name: '"
      ++ escapeSingle n ++ "' \x7d).click();"
  | none => "await page.getByRole('" ++ role ++ "').click();"

def clickByText (text : String) : String :=
  "await page.getByText('" ++ escapeSingle text ++ "').click();"

def clickBySelector (selector : String) : String :=
  "await page.locator('" ++ escapeSingle selector ++ "').click();"

def fillByTestId (testId value : String) : String :=
  "await page.getByTestId('" ++ escapeSingle testId ++ "').fill('"
    ++ escapeSingle value ++ "');"

def fillByRole (role name value : String) : String :=
  "await page.getByRole('" ++ role ++ "', \x7b name: '" ++ escapeSingle name
    ++ "' \x7d).fill('" ++ escapeSingle value ++ "');"

def fillByPlaceholder (placeholder value : String) : String :=
  "await page.getByPlaceholder('" ++ escapeSingle placeholder ++ "').fill('"
    ++ escapeSingle value ++ "');"

def fillBySelector (selector value : String) : String :=
  "await page.locator('" ++ escapeSingle selector ++ "').fill('"
    ++ escapeSingle value ++ "');"

def goto (url : String) : String :=
  "await page.goto('" ++ escapeSingle url ++ "');"

def expectUrlContains (fragment : String) : String :=
  "await expect(page).toHaveURL(/" ++ escapeRegex fragment ++ "/);"

def expectVisible (testId : String) : String :=
  "await expect(page.getByTestId('" ++ escapeSingle testId
    ++ "')).toBeVisible();"

def waitForLoadState (state : String) : String :=
  "await page.waitForLoadState('" ++ state ++ "');"

def comment (text : String) : String := "// " ++ text

def todoComment (text : String) : String := "// TODO: " ++ text

end templates

/-! ## Action statement generation (`generateAction` in `test-generator.ts`) -/

/-- String rendering of an interaction kind (for the fallback comment). -/
def interactionTypeStr : InteractionType → String
  | InteractionType.click => "click"
  | InteractionType.dblclick => "dblclick"
  | InteractionType.input => "input"
  | InteractionType.change => "change"
  | InteractionType.submit => "submit"
  | InteractionType.keydown => "keydown"
  | InteractionType.keyup => "keyup"
  | InteractionType.focus => "focus"
  | InteractionType.blur => "blur"
  | InteractionType.navigation => "navigation"
  | InteractionType.scroll => "scroll"
  | InteractionType.hover => "hover"

/-- `generateAction` from `test-generator.ts`: produce the action statement
for one interaction, choosing the selector by the priority coded there; the
test-id map is the session's selector-to-identifier assignment. -/
def generateAction (interaction : InteractionData)
    (testIdMap : List (String × String)) : Option String :=
  let element := interaction.element
  let testId := firstTruthyStr [element.existingTestId,
    attrLookup testIdMap element.cssSelector]
  let elementId := (attrLookup element.attributes "id").getD ""
  match interaction.type with
  | InteractionType.click | InteractionType.dblclick =>
    if testId ≠ "" then some (templates.clickByTestId testId)
    else if optTruthy element.ariaRole && optTruthy element.ariaLabel then
      some (templates.clickByRole (element.ariaRole.getD "") element.ariaLabel)
    else if optTruthy element.textContent then
      some (templates.clickByText (element.textContent.getD ""))
    else if optTruthy element.innerText
        && decide ((element.innerText.getD "").length < 50) then
      some (templates.clickByText (element.innerText.getD ""))
    else if elementId ≠ "" then
      some (templates.clickBySelector ("#" ++ elementId))
    else some (templates.clickBySelector element.cssSelector)
  | InteractionType.input | InteractionType.change =>
    let fillValue := firstTruthyStr [interaction.value, element.value]
    if fillValue = "" then none
    else if testId ≠ "" then some (templates.fillByTestId testId fillValue)
    else if optTruthy element.placeholder then
      some (templates.fillByPlaceholder (element.placeholder.getD "") fillValue)
    else if optTruthy element.ariaLabel then
      some (templates.fillByRole "textbox" (element.ariaLabel.getD "") fillValue)
    else if elementId ≠ "" then
      some (templates.fillBySelector ("#" ++ elementId) fillValue)
    else some (templates.fillBySelector element.cssSelector fillValue)
  | InteractionType.submit => some (templates.comment "Form submitted")
  | InteractionType.keydown =>
    if interaction.key = some "Enter" then
      some "await page.keyboard.press('Enter');"
    else if interaction.key = some "Escape" then
      some "await page.keyboard.press('Escape');"
    else if interaction.key = some "Tab" then
      some "await page.keyboard.press('Tab');"
    else none
  | InteractionType.navigation => none
  | t => some (templates.comment
      (interactionTypeStr t ++ " event on " ++ element.tagName))

/-- The fill-statement priority chain as the code implements it (the amended
C6): assigned identifier, then placeholder, then aria-label rendered as a
`textbox` role, then element `id` attribute, then raw CSS selector; nothing
at all when the final captured value is empty. -/
def fillActionSpec (interaction : InteractionData)
    (testIdMap : List (String × String)) : Option String :=
  let element := interaction.element
  let testId := firstTruthyStr [element.existingTestId,
    attrLookup testIdMap element.cssSelector]
  let elementId := (attrLookup element.attributes "id").getD ""
  let fillValue := firstTruthyStr [interaction.value, element.value]
  if fillValue = "" then none
  else if testId ≠ "" then some (templates.fillByTestId testId fillValue)
  else if optTruthy element.placeholder then
    some (templates.fillByPlaceholder (element.placeholder.getD "") fillValue)
  else if optTruthy element.ariaLabel then
    some (templates.fillByRole "textbox" (element.ariaLabel.getD "") fillValue)
  else if elementId ≠ "" then
    some (templates.fillBySelector ("#" ++ elementId) fillValue)
  else some (templates.fillBySelector element.cssSelector fillValue)

/-- Counterexample to C6 as stated: an input interaction on an element with
no identifier but with both a placeholder and an accessible role-plus-label
is filled through `getByPlaceholder`, not through the role-plus-label
selector the claimed click-priority order would require. -/
theorem generateAction_fill_counterexample :
    generateAction
      ⟨"1", InteractionType.input, 0, "u",
        { tagName := "input", cssSelector := "#e", ariaLabel := some "Email address",
          ariaRole := some "textbox", placeholder := some "Email" },
        none, some "x", none⟩ []
      = some (templates.fillByPlaceholder "Email" "x") ∧
    templates.fillByPlaceholder "Email" "x"
      ≠ templates.fillByRole "textbox" "Email address" "x" := by
  constructor
  · rfl
  · decide

/-- C6 (amended): for every `input`/`change` interaction the emitted fill
statement follows the priority chain identifier > placeholder > aria-label
(as a `textbox` role) > element id > raw CSS selector, filling the final
captured value, and nothing is emitted when that value is empty. -/
theorem generateAction_fill_priority (interaction : InteractionData)
    (testIdMap : List (String × String))
    (h : interaction.type = InteractionType.input ∨
      interaction.type = InteractionType.change) :
    generateAction interaction testIdMap = fillActionSpec interaction testIdMap := by
  cases interaction with
  | mk id ty ts url element source value key =>
    rcases h with h | h <;> (simp only at h; subst h) <;> rfl

/-- Witness for C6 at a concrete input interaction with no selector data but
a value: the raw-CSS fill is emitted. -/
theorem generateAction_fill_priority_witness :
    generateAction
        ⟨"2", InteractionType.input, 0, "u", { tagName := "input", cssSelector := "#f" },
          none, some "hello", none⟩ []
      = fillActionSpec
        ⟨"2", InteractionType.input, 0, "u", { tagName := "input", cssSelector := "#f" },
          none, some "hello", none⟩ [] ∧
    fillActionSpec
        ⟨"2", InteractionType.input, 0, "u", { tagName := "input", cssSelector := "#f" },
          none, some "hello", none⟩ []
      = some (templates.fillBySelector "#f" "hello") :=
  ⟨generateAction_fill_priority _ [] (Or.inl rfl), by rfl⟩

/-! ## URL parsing model

The source calls the platform's WHATWG `new URL(url)` and reads `pathname`.
Modelled for absolute URLs of the form `scheme://host[/path][?…][#…]`:
the pathname starts at the first `/` after the `://`, defaulting to `/`;
`none` models the `TypeError` thrown for a string without `://`. -/

/-- Remainder of `s` after the first occurrence of `pat`, or `none`. -/
def afterSub : List Char → List Char → Option (List Char)
  | s, pat =>
    match s with
    | [] => if pat.isEmpty then some [] else none
    | _ :: rest =>
      if listStartsWith s pat then some (s.drop pat.length)
      else afterSub rest pat

/-- The `pathname` of `new URL(s)` (see the section comment). -/
def urlPathname (s : String) : Option String :=
  match afterSub s.data [':', '/', '/'] with
  | none => none
  | some rest =>
    let path := rest.dropWhile (fun c => !(c == '/'))
    let path2 := path.takeWhile (fun c => !(c == '?') && !(c == '#'))
    some (if path2.isEmpty then "/" else ⟨path2⟩)

/-! ## Assertion rule engine (`assertion-generator.ts`) -/

/-- Assertion confidence levels. -/
inductive Confidence where
  | high | medium | low
  deriving Repr, DecidableEq

/-- `GeneratedAssertion` from `assertion-generator.ts`. -/
structure GeneratedAssertion where
  code : String
  confidence : Confidence
  description : String
  deriving Repr, DecidableEq

/-- `generateAssertions` from `assertion-generator.ts`: the ordered rule set
over the (current, next) window; `Except.error` models the uncaught
`TypeError` of `new URL` on an unparsable URL. -/
def generateAssertions (interactions : List InteractionData) (index : Nat) :
    Except String (List GeneratedAssertion) :=
  match interactions[index]? with
  | none => Except.ok []
  | some current => do
    let next := interactions[index + 1]?
    let part1 ← (match next with
      | some nxt =>
        if current.type = InteractionType.click ∧
            nxt.type = InteractionType.navigation then
          match urlPathname nxt.url with
          | some p => Except.ok [⟨templates.expectUrlContains p, Confidence.high,
              "Verify navigation to " ++ p ++ " after click"⟩]
          | none => Except.error ("Invalid URL: " ++ nxt.url)
        else Except.ok []
      | none => Except.ok [])
    let part2 ← (if current.type = InteractionType.navigation then
        match urlPathname current.url with
        | some p => Except.ok [⟨templates.expectUrlContains p, Confidence.high,
            "Verify URL contains " ++ p⟩]
        | none => Except.error ("Invalid URL: " ++ current.url)
      else Except.ok [])
    let part3 ← (if current.type = InteractionType.submit then
        match next with
        | some nxt =>
          if nxt.url ≠ current.url then
            match urlPathname nxt.url with
            | some p => Except.ok
                [⟨templates.waitForLoadState "networkidle", Confidence.high,
                  "Wait for form submission to complete"⟩,
                 ⟨templates.expectUrlContains p, Confidence.high,
                  "Verify redirect after form submission to " ++ p⟩]
            | none => Except.error ("Invalid URL: " ++ nxt.url)
          else Except.ok [⟨templates.waitForLoadState "networkidle",
              Confidence.high, "Wait for form submission to complete"⟩]
        | none => Except.ok [⟨templates.waitForLoadState "networkidle",
            Confidence.high, "Wait for form submission to complete"⟩]
      else Except.ok [])
    let part4 := (match next with
      | some nxt =>
        if current.type = InteractionType.click ∧
            nxt.type ≠ InteractionType.navigation ∧
            optTruthy nxt.element.existingTestId = true then
          [⟨templates.expectVisible (nxt.element.existingTestId.getD ""),
            Confidence.medium, "Verify element becomes visible after click"⟩]
        else []
      | none => [])
    let part5 := (if current.type = InteractionType.input ∧
          optTruthy current.value = true then
        [⟨templates.todoComment ("Verify input value is '"
            ++ (current.value.getD "").take 30 ++ "'"),
          Confidence.low, "Input value assertion (needs manual review)"⟩]
      else [])
    pure (part1 ++ part2 ++ part3 ++ part4 ++ part5)

/-! ## Test body generation (`generateTestBody` in `test-generator.ts`) -/

/-- The Playwright block of `ProjectConfig`. -/
structure PlaywrightConfig where
  baseURL : String
  timeout : Nat := 30000
  deriving Repr, DecidableEq

/-- `ProjectConfig` from `shared/src/types.ts` (the fields read by the
generator). -/
structure ProjectConfig where
  projectRoot : String := ""
  testOutputDir : String := "tests/e2e"
  sourceDir : String := "src"
  playwright : PlaywrightConfig
  deriving Repr, DecidableEq

/-- The loop body of `generateTestBody`, recursing over the remaining
interactions while tracking the index `i`, the emitted lines, and the
current URL.  `all` is the full interaction list (consulted by the assertion
engine). -/
def testBodyGo (all : List InteractionData) (config : ProjectConfig)
    (testIdMap : List (String × String)) :
    List InteractionData → Nat → List String → String →
      Except String (List String)
  | [], _, lines, _ => Except.ok lines
  | interaction :: rest, i, lines, currentUrl =>
    let nav :=
      if interaction.type = InteractionType.navigation ∨
          (i = 0 ∧ interaction.url ≠ "") then
        if interaction.url ≠ currentUrl then
          let parsed := urlPathname interaction.url
          let gotoUrl := match parsed with
            | some p =>
              if interaction.url.startsWith config.playwright.baseURL then p
              else interaction.url
            | none => interaction.url
          let extra := match parsed with
            | some p =>
              if interaction.type = InteractionType.navigation ∧ i > 0 then
                ["", templates.comment ("Navigate to " ++ p)]
              else []
            | none => []
          (lines ++ extra ++ (if i = 0 then [templates.goto gotoUrl, ""] else []),
            interaction.url)
        else (lines, currentUrl)
      else (lines, currentUrl)
    if interaction.type = InteractionType.navigation then
      testBodyGo all config testIdMap rest (i + 1) nav.1 nav.2
    else
      match generateAssertions all i with
      | Except.error e => Except.error e
      | Except.ok asserts =>
        let lines₂ := match generateAction interaction testIdMap with
          | some a => nav.1 ++ [a]
          | none => nav.1
        let lines₃ := lines₂ ++ asserts.flatMap (fun a =>
          match a.confidence with
          | Confidence.high => [a.code]
          | Confidence.medium => [templates.todoComment a.description]
          | Confidence.low => [])
        testBodyGo all config testIdMap rest (i + 1) lines₃ nav.2

/-- `generateTestBody` from `test-generator.ts`: per interaction, the
navigation/goto handling, the action statement, then the assertion engine's
output — only high-confidence assertions as executable code, medium ones as
TODO comments, low ones not at all. -/
def generateTestBody (interactions : List InteractionData)
    (config : ProjectConfig) (testIdMap : List (String × String)) :
    Except String String :=
  (testBodyGo interactions config testIdMap interactions 0 [] "").map
    (fun lines => String.intercalate "\n" lines)

set_option maxRecDepth 4000 in
/-- C7: at the failing input — a single input interaction with a typed value
— the assertion engine produces exactly one low-confidence assertion (whose
code is a TODO comment), yet the generated test body contains no TODO
comment at all: `generateTestBody` silently drops low-confidence assertions
instead of emitting them as TODO comments. -/
theorem generateTestBody_drops_low_confidence :
    generateAssertions
        [⟨"1", InteractionType.input, 0, "", { tagName := "input", cssSelector := "#f" },
          none, some "hello", none⟩] 0
      = Except.ok [⟨templates.todoComment "Verify input value is 'hello'",
          Confidence.low, "Input value assertion (needs manual review)"⟩] ∧
    generateTestBody
        [⟨"1", InteractionType.input, 0, "", { tagName := "input", cssSelector := "#f" },
          none, some "hello", none⟩]
        ⟨"", "tests/e2e", "src", ⟨"http://localhost:5173", 30000⟩⟩ []
      = Except.ok (templates.fillBySelector "#f" "hello") ∧
    containsSubstr (templates.fillBySelector "#f" "hello")
        (templates.todoComment "Verify input value is 'hello'") = false := by
  refine ⟨rfl, rfl, ?_⟩
  decide

/-! ## Flow grouping (`groupInteractions` in `test-generator.ts`) -/

/-- `InteractionGroup` from `test-generator.ts`. -/
structure InteractionGroup where
  description : String
  baseUrl : String
  interactions : List InteractionData
  sourceFile : Option String := none
  deriving Repr, DecidableEq

/-- The `data-source` attribute hint read when a new group opens
(`interaction.element?.attributes?.['data-source'] || undefined`). -/
def dataSourceHint (i : InteractionData) : Option String :=
  match attrLookup i.element.attributes "data-source" with
  | some s => if s = "" then none else some s
  | none => none

/-- Source-file tracking (`if (source?.filePath && !currentGroup.sourceFile)`);
the `(interaction.element as any)?.source` cast always misses in the typed
data model, so only `interaction.source` is consulted. -/
def trackSource (g : InteractionGroup) (i : InteractionData) : InteractionGroup :=
  if optTruthy (i.source.map (fun s => s.filePath))
      && !(optTruthy g.sourceFile) then
    { g with sourceFile := i.source.map (fun s => s.filePath) }
  else g

/-- Appending the interaction to the open group. -/
def pushInteraction (g : InteractionGroup) (i : InteractionData) :
    InteractionGroup :=
  { g with interactions := g.interactions ++ [i] }

/-- The grouping loop of `groupInteractions`: a navigation to a different
URL flushes the non-empty current group and opens a group named
`interact with <path>`; every interaction (the navigation included) is
appended to the open group.  `Except.error` models the uncaught `TypeError`
of `new URL` on an unparsable navigation URL. -/
def groupGo : List InteractionData → InteractionGroup →
    List InteractionGroup → Except String (List InteractionGroup)
  | [], current, groups =>
    Except.ok (groups ++ if current.interactions.length > 0 then [current] else [])
  | i :: rest, current, groups =>
    if i.type = InteractionType.navigation ∧ i.url ≠ current.baseUrl then
      match urlPathname i.url with
      | none => Except.error ("Invalid URL: " ++ i.url)
      | some p =>
        let groups₁ := groups ++
          if current.interactions.length > 0 then [current] else []
        let newGroup : InteractionGroup :=
          ⟨"interact with " ++ p, i.url, [], dataSourceHint i⟩
        groupGo rest (pushInteraction (trackSource newGroup i) i) groups₁
    else
      groupGo rest (pushInteraction (trackSource current i) i) groups

/-- The final renaming of the first group in `groupInteractions`:
`"home page"` for path `/`, otherwise the path without its leading slash
followed by `" page"`, or `"main page"` when the base URL does not parse
(the `try`/`catch`). -/
def firstGroupName (baseUrl : String) : String :=
  match urlPathname baseUrl with
  | some p => if p = "/" then "home page" else (p.drop 1) ++ " page"
  | none => "main page"

/-- `groupInteractions` from `test-generator.ts`. -/
def groupInteractions (interactions : List InteractionData) :
    Except String (List InteractionGroup) :=
  match interactions with
  | [] => Except.ok []
  | first :: _ =>
    match groupGo interactions ⟨"initial flow", first.url, [], none⟩ [] with
    | Except.error e => Except.error e
    | Except.ok gs =>
      match gs with
      | [] => Except.ok []
      | g0 :: rest =>
        Except.ok ({ g0 with description := firstGroupName g0.baseUrl } :: rest)

/-- A group opened by a navigation event: named `interact with <path>` after
its base URL's path. -/
def navNamed (g : InteractionGroup) : Prop :=
  ∃ p, urlPathname g.baseUrl = some p ∧ g.description = "interact with " ++ p

theorem trackSource_fields (g : InteractionGroup) (i : InteractionData) :
    (trackSource g i).description = g.description ∧
    (trackSource g i).baseUrl = g.baseUrl ∧
    (trackSource g i).interactions = g.interactions := by
  unfold trackSource
  split <;> exact ⟨rfl, rfl, rfl⟩

theorem pushInteraction_fields (g : InteractionGroup) (i : InteractionData) :
    (pushInteraction g i).description = g.description ∧
    (pushInteraction g i).baseUrl = g.baseUrl ∧
    (pushInteraction g i).interactions = g.interactions ++ [i] :=
  ⟨rfl, rfl, rfl⟩

theorem groupGo_spec : ∀ (l : List InteractionData) (current : InteractionGroup)
    (groups gs : List InteractionGroup),
    groupGo l current groups = Except.ok gs →
    ∃ tailGroups, gs = groups ++ tailGroups ∧
      (gs.flatMap (fun g => g.interactions)
        = groups.flatMap (fun g => g.interactions) ++ current.interactions ++ l) ∧
      (∀ g ∈ tailGroups.drop 1, navNamed g) ∧
      (∀ g ∈ tailGroups.take 1,
        (g.description = current.description ∧ g.baseUrl = current.baseUrl) ∨
          navNamed g) ∧
      (∀ g ∈ tailGroups, g.interactions ≠ []) := by
  intro l
  induction l with
  | nil =>
    intro current groups gs h
    simp only [groupGo, Except.ok.injEq] at h
    subst h
    by_cases hne : current.interactions.length > 0
    · refine ⟨[current], by simp [hne], ?_, by simp, ?_, ?_⟩
      · simp [hne, List.flatMap_append]
      · intro g hg
        simp only [List.take, List.mem_singleton] at hg
        subst hg
        exact Or.inl ⟨rfl, rfl⟩
      · intro g hg
        simp only [List.mem_singleton] at hg
        subst hg
        intro habs
        rw [habs] at hne
        simp at hne
    · have hemp : current.interactions = [] := by
        simpa using List.length_eq_zero.mp (by omega)
      refine ⟨[], by simp [hne], ?_, by simp, by simp, by simp⟩
      simp [hne, hemp]
  | cons i rest ih =>
    intro current groups gs h
    by_cases hnav : i.type = InteractionType.navigation ∧ i.url ≠ current.baseUrl
    · rw [groupGo, if_pos hnav] at h
      cases hurl : urlPathname i.url with
      | none => rw [hurl] at h; exact absurd h (by simp)
      | some p =>
        rw [hurl] at h
        obtain ⟨tail', hsplit, hfm, hdrop, htake, hne'⟩ := ih _ _ _ h
        have hcur' :
            (pushInteraction (trackSource ⟨"interact with " ++ p, i.url, [],
              dataSourceHint i⟩ i) i).description = "interact with " ++ p ∧
            (pushInteraction (trackSource ⟨"interact with " ++ p, i.url, [],
              dataSourceHint i⟩ i) i).baseUrl = i.url ∧
            (pushInteraction (trackSource ⟨"interact with " ++ p, i.url, [],
              dataSourceHint i⟩ i) i).interactions = [i] := by
          obtain ⟨t1, t2, t3⟩ := trackSource_fields
            ⟨"interact with " ++ p, i.url, [], dataSourceHint i⟩ i
          obtain ⟨p1, p2, p3⟩ := pushInteraction_fields
            (trackSource ⟨"interact with " ++ p, i.url, [], dataSourceHint i⟩ i) i
          refine ⟨p1.trans t1, p2.trans t2, p3.trans ?_⟩
          rw [t3]
          rfl
        have hallNav : ∀ g ∈ tail', navNamed g := by
          intro g hg
          rw [← List.take_append_drop 1 tail'] at hg
          rcases List.mem_append.mp hg with hg | hg
          · rcases htake g hg with ⟨hd, hb⟩ | hnn
            · exact ⟨p, by rw [hb, hcur'.2.1, hurl], by rw [hd, hcur'.1]⟩
            · exact hnn
          · exact hdrop g hg
        refine ⟨(if current.interactions.length > 0 then [current] else []) ++ tail',
          by rw [hsplit]; simp, ?_, ?_, ?_, ?_⟩
        · rw [hfm, hcur'.2.2]
          by_cases hlen : current.interactions.length > 0
          · simp only [if_pos hlen, List.flatMap_append, List.flatMap_cons,
              List.flatMap_nil, List.append_nil]
            simp
          · have : current.interactions = [] := by
              simpa using List.length_eq_zero.mp (by omega)
            simp [hlen, this]
        · intro g hg
          by_cases hlen : current.interactions.length > 0
          · rw [if_pos hlen] at hg
            simp only [List.singleton_append, List.drop_succ_cons, List.drop_zero] at hg
            exact hallNav g hg
          · rw [if_neg hlen, List.nil_append] at hg
            exact hallNav g (List.mem_of_mem_drop hg)
        · intro g hg
          by_cases hlen : current.interactions.length > 0
          · rw [if_pos hlen] at hg
            simp only [List.singleton_append, List.take_succ_cons, List.take_zero,
              List.mem_singleton] at hg
            subst hg
            exact Or.inl ⟨rfl, rfl⟩
          · rw [if_neg hlen, List.nil_append] at hg
            exact Or.inr (hallNav g (List.mem_of_mem_take hg))
        · intro g hg
          rcases List.mem_append.mp hg with hg | hg
          · by_cases hlen : current.interactions.length > 0
            · rw [if_pos hlen] at hg
              simp only [List.mem_singleton] at hg
              subst hg
              intro habs
              rw [habs] at hlen
              simp at hlen
            · rw [if_neg hlen] at hg
              cases hg
          · exact hne' g hg
    · rw [groupGo, if_neg hnav] at h
      obtain ⟨tail', hsplit, hfm, hdrop, htake, hne'⟩ := ih _ _ _ h
      obtain ⟨t1, t2, t3⟩ := trackSource_fields current i
      obtain ⟨p1, p2, p3⟩ := pushInteraction_fields (trackSource current i) i
      refine ⟨tail', hsplit, ?_, hdrop, ?_, hne'⟩
      · rw [hfm, p3, t3]
        simp
      · intro g hg
        rcases htake g hg with ⟨hd, hb⟩ | hnn
        · exact Or.inl ⟨hd.trans (p1.trans t1), hb.trans (p2.trans t2)⟩
        · exact Or.inr hnn

/-- C8 (amended): whenever `groupInteractions` succeeds, the groups
partition the interaction stream in order (navigation events included, and
the open group flushed at end of stream); every returned group is
non-empty; every group after the first was opened by a navigation and is
named `interact with <path>`; and the first group is finally renamed to
`home page` for path `/`, to the path without its leading slash followed by
`" page"` otherwise, or to `main page` when its base URL does not parse. -/
theorem groupInteractions_spec (l : List InteractionData)
    (gs : List InteractionGroup) (h : groupInteractions l = Except.ok gs) :
    (gs.flatMap (fun g => g.interactions) = l) ∧
    (∀ g ∈ gs, g.interactions ≠ []) ∧
    (∀ g ∈ gs.drop 1, navNamed g) ∧
    (∀ g ∈ gs.take 1, g.description = firstGroupName g.baseUrl) := by
  cases l with
  | nil =>
    simp only [groupInteractions, Except.ok.injEq] at h
    subst h
    simp
  | cons first rest =>
    simp only [groupInteractions] at h
    cases hgo : groupGo (first :: rest) ⟨"initial flow", first.url, [], none⟩ [] with
    | error e => rw [hgo] at h; cases h
    | ok gs₀ =>
      rw [hgo] at h
      obtain ⟨tail, hsplit, hfm, hdrop, _, hne⟩ := groupGo_spec _ _ _ _ hgo
      simp only [List.nil_append] at hsplit
      subst hsplit
      cases gs₀ with
      | nil => simp at hfm
      | cons g0 rest₀ =>
        simp only [Except.ok.injEq] at h
        subst h
        refine ⟨?_, ?_, ?_, ?_⟩
        · simpa using hfm
        · intro g hg
          rcases List.mem_cons.mp hg with rfl | hg
          · exact hne g0 (List.mem_cons_self _ _)
          · exact hne g (List.mem_cons_of_mem _ hg)
        · intro g hg
          simp only [List.drop_succ_cons, List.drop_zero] at hg
          exact hdrop g (by simpa using hg)
        · intro g hg
          simp only [List.take_succ_cons, List.take_zero, List.mem_singleton] at hg
          subst hg
          rfl

/-- Witness for C8 at a concrete two-page stream. -/
theorem groupInteractions_spec_witness :
    (([⟨"home page", "http://a/",
        [⟨"1", InteractionType.click, 0, "http://a/", {}, none, none, none⟩], none⟩,
      ⟨"interact with /p2", "http://a/p2",
        [⟨"2", InteractionType.navigation, 1, "http://a/p2", {}, none, none, none⟩,
         ⟨"3", InteractionType.click, 2, "http://a/p2", {}, none, none, none⟩],
        none⟩] : List InteractionGroup).flatMap (fun g => g.interactions)
      = [⟨"1", InteractionType.click, 0, "http://a/", {}, none, none, none⟩,
         ⟨"2", InteractionType.navigation, 1, "http://a/p2", {}, none, none, none⟩,
         ⟨"3", InteractionType.click, 2, "http://a/p2", {}, none, none, none⟩]) ∧
    (∀ g ∈ ([⟨"home page", "http://a/",
        [⟨"1", InteractionType.click, 0, "http://a/", {}, none, none, none⟩], none⟩,
      ⟨"interact with /p2", "http://a/p2",
        [⟨"2", InteractionType.navigation, 1, "http://a/p2", {}, none, none, none⟩,
         ⟨"3", InteractionType.click, 2, "http://a/p2", {}, none, none, none⟩],
        none⟩] : List InteractionGroup).drop 1, navNamed g) := by
  have h := groupInteractions_spec
    [⟨"1", InteractionType.click, 0, "http://a/", {}, none, none, none⟩,
     ⟨"2", InteractionType.navigation, 1, "http://a/p2", {}, none, none, none⟩,
     ⟨"3", InteractionType.click, 2, "http://a/p2", {}, none, none, none⟩]
    [⟨"home page", "http://a/",
        [⟨"1", InteractionType.click, 0, "http://a/", {}, none, none, none⟩], none⟩,
     ⟨"interact with /p2", "http://a/p2",
        [⟨"2", InteractionType.navigation, 1, "http://a/p2", {}, none, none, none⟩,
         ⟨"3", InteractionType.click, 2, "http://a/p2", {}, none, none, none⟩],
        none⟩] rfl
  exact ⟨h.1, h.2.2.1⟩

/-- Counterexample to C8 as stated: the group opened by the navigation to
`/p2` is named `interact with /p2`, not a `"<path> page"`-style name — only
the first group receives the page-style name. -/
theorem groupInteractions_naming_counterexample :
    ((groupInteractions
        [⟨"1", InteractionType.click, 0, "http://a/", {}, none, none, none⟩,
         ⟨"2", InteractionType.navigation, 1, "http://a/p2", {}, none, none, none⟩,
         ⟨"3", InteractionType.click, 2, "http://a/p2", {}, none, none, none⟩]).map
      (fun gs => gs.map (fun g => g.description)))
      = Except.ok ["home page", "interact with /p2"] ∧
    ¬("interact with /p2" = "p2 page" ∨ "interact with /p2" = "/p2 page") :=
  ⟨rfl, by decide⟩
